import Mathlib

/-!
Shallow embedding of the news-summarize pipeline (src/news_summarizer and
src/api of the repository) and proofs about it.

Python strings are modelled as `List Char` (`Str` below); all text operations
(`str.split()`, `str.strip()`, slicing, the regex substitutions and scans the
code uses) are spelled out as executable Lean functions over `List Char`.

External collaborators (the HuggingFace tokenizer, nltk `sent_tokenize` and
`word_tokenize`, the two model pipelines, `random.choice`, and Python `set`
iteration order) enter as explicit function parameters: the pipeline is a pure
function of the article text plus those collaborators, exactly as the spec's
data-model invariant states.

Floating-point token estimates (`len(s.split()) * 1.3`, the `* 0.8` batch
limit) are idealized to exact arithmetic held at scale x10, so every estimate
and limit is a natural number: `1.3 * words <= max_tokens` becomes
`13 * words <= 10 * max_tokens`.
-/

namespace NewsSum

/-- Python strings are modelled as lists of characters. -/
abbrev Str := List Char

/-- Whitespace test used by `str.split()`, `str.strip()` and `\s` in regexes. -/
def isWs (c : Char) : Bool := c.isWhitespace

/-- Accumulator-style splitter behind `pySplit`: `cur` is the current word,
reversed. A whitespace character flushes `cur`; the end of input flushes it too. -/
def pySplitAux : Str → Str → List Str
  | [], cur => if cur = [] then [] else [cur.reverse]
  | c :: cs, cur =>
    if isWs c then
      (if cur = [] then pySplitAux cs [] else cur.reverse :: pySplitAux cs [])
    else pySplitAux cs (c :: cur)

/-- Python `str.split()` with no argument: split on whitespace runs, dropping
empty pieces. -/
def pySplit (s : Str) : List Str := pySplitAux s []

/-- Python `' '.join(ws)`. -/
def joinSp : List Str → Str
  | [] => []
  | [w] => w
  | w :: ws => w ++ ' ' :: joinSp ws

/-- The running string built by the idiom `cur = cur + " " + s if cur else s`
applied left to right, starting from the empty string. -/
def accJoin (ws : List Str) : Str :=
  ws.foldl (fun c s => if c = [] then s else c ++ ' ' :: s) []

/-- Python `str.strip()`: drop whitespace from both ends. -/
def pyStrip (s : Str) : Str :=
  ((s.dropWhile isWs).reverse.dropWhile isWs).reverse

/-- Recursion core of `normSpaces`. The first argument is a structural fuel
bound on the remaining length (every step consumes at least one character and
one unit of fuel), so the function reduces in the kernel; the zero-fuel
fallback is unreachable from `normSpaces`. -/
def normSpacesF : ℕ → Str → Str
  | _, [] => []
  | 0, _ :: _ => []
  | f + 1, c :: cs =>
    if isWs c then ' ' :: normSpacesF f (cs.dropWhile isWs)
    else c :: normSpacesF f cs

/-- The substitution `re.sub(r'\s+', ' ', s)`: every whitespace run becomes a
single space. -/
def normSpaces (s : Str) : Str := normSpacesF s.length s

/-- Token estimate of `_chunk_text`, held x10: `len(sentence.split()) * 1.3`
becomes `13 * (number of words)`. -/
def estTokens10 (s : Str) : ℕ := 13 * (pySplit s).length

/-- Sum of the x10 token estimates of a list of sentences. -/
def sumEst (l : List Str) : ℕ := (l.map estTokens10).sum

/-- One greedy step of `_chunk_text`'s sentence loop. The state is
(finished chunks each paired with its sentences, sentences of the current
chunk, x10 token count of the current chunk). In the source the current chunk
is the string `accJoin cur` and its truthiness test is `accJoin cur != ""`;
the sentence list is carried so theorems can speak about a chunk's sentences. -/
def chunkStep (limit10 : ℕ) :
    List (Str × List Str) × List Str × ℕ → Str → List (Str × List Str) × List Str × ℕ
  | (out, cur, tok), s =>
    if tok + estTokens10 s ≤ limit10 then (out, cur ++ [s], tok + estTokens10 s)
    else
      ((if accJoin cur = [] then out else out ++ [(pyStrip (accJoin cur), cur)]),
       [s], estTokens10 s)

/-- The final flush of `_chunk_text`'s loop: `if current_chunk:
chunks.append(current_chunk.strip())`. -/
def chunkFinish (st : List (Str × List Str) × List Str × ℕ) : List (Str × List Str) :=
  if accJoin st.2.1 = [] then st.1 else st.1 ++ [(pyStrip (accJoin st.2.1), st.2.1)]

/-- The sentence-accumulation path of `_chunk_text`: greedy chunks, each chunk
returned as its stripped joined string paired with its sentence list. -/
def chunkPairs (maxTok : ℕ) (sents : List Str) : List (Str × List Str) :=
  chunkFinish (sents.foldl (chunkStep (10 * maxTok)) ([], [], 0))

/-- Embeds `NewsArticleSummarizer._chunk_text` (core.py). `encodeLen` is the
exact tokenizer length `len(self.tokenizer.encode(text))` (an external
collaborator), `sentTok` is nltk `sent_tokenize`. If the exact token count of
the whole text fits the budget the text is returned as one chunk; otherwise
sentences are accumulated greedily under the x10-scaled estimate. -/
def chunk_text (encodeLen : Str → ℕ) (sentTok : Str → List Str)
    (maxTok : ℕ) (text : Str) : List Str :=
  if encodeLen text ≤ maxTok then [text]
  else (chunkPairs maxTok (sentTok text)).map Prod.fst

/-- Arguments of one call to the external summarization pipeline
(`max_length`, `min_length`, `num_beams`); `do_sample`/`early_stopping` are
constants at every call site and carry no information. -/
structure SummArgs where
  max_length : ℕ
  min_length : Option ℕ
  num_beams : ℕ
deriving DecidableEq

/-- The external summarization service: `None` models a raised exception.
The source unwraps the pipeline's `[{'summary_text': s}]` envelope via
`_extract_summary_text`; the model output is taken to be that text directly. -/
abbrev Summarizer := SummArgs → Str → Option Str

/-- The summarizer of Scenario C: every call raises. -/
def failingSummarizer : Summarizer := fun _ _ => none

/-- One greedy step of `_generate_base_summary`'s chunk-combining loop
(the `len(chunks) > 3` branch): groups are joined with the same
`cur + " " + chunk if cur else chunk` idiom, appended without stripping. -/
def combineStep (limit10 : ℕ) :
    List Str × List Str × ℕ → Str → List Str × List Str × ℕ
  | (out, cur, tok), c =>
    if tok + estTokens10 c ≤ limit10 then (out, cur ++ [c], tok + estTokens10 c)
    else ((if accJoin cur = [] then out else out ++ [accJoin cur]), [c], estTokens10 c)

/-- The chunk-combining pass of `_generate_base_summary`: adjacent chunks are
grouped while the x10 estimate stays within 80% of the budget
(`max_chunk_tokens * 0.8`, scaled: `8 * maxTok`). -/
def combineChunks (maxTok : ℕ) (chunks : List Str) : List Str :=
  let st := chunks.foldl (combineStep (8 * maxTok)) ([], [], 0)
  if accJoin st.2.1 = [] then st.1 else st.1 ++ [accJoin st.2.1]

/-- Embeds `NewsArticleSummarizer._generate_base_summary` (core.py). Each
`try/except` around a summarizer call becomes a `match` on the `Option`
result, the `except` branch being the truncation fallback (`[:500]` for a
single chunk and for the final combination, `[:150]` per chunk). -/
def generate_base_summary (encodeLen : Str → ℕ) (sentTok : Str → List Str)
    (summ : Summarizer) (maxTok : ℕ) (text : Str) : Str :=
  let chunks := chunk_text encodeLen sentTok maxTok text
  if chunks = [] then []
  else if chunks.length = 1 then
    match summ ⟨60, none, 2⟩ (chunks.headD []) with
    | some r => r
    | none => (chunks.headD []).take 500
  else
    let chunks2 := if 3 < chunks.length then combineChunks maxTok chunks else chunks
    let summaries := chunks2.map fun c =>
      match summ ⟨40, some 20, 2⟩ c with
      | some r => r
      | none => c.take 150
    if 1 < summaries.length then
      let combined := joinSp summaries
      if 100 < (pySplit combined).length then
        match summ ⟨60, some 30, 2⟩ combined with
        | some r => r
        | none => combined.take 500
      else combined
    else summaries.headD []

/-- Digit test of the `[0-9]` character class. -/
def isDigitC (c : Char) : Bool := c.isDigit

/-- Character class `[0-9,]` of the price regex. -/
def isPriceChar (c : Char) : Bool := c.isDigit || c = ','

/-- One attempted match of `([0-9]+\.?[0-9]*)\s*%` at the head of `l`:
`some (capture, consumed - 1)`. Greedy runs are the only viable choices here
(a shorter digit or whitespace run leaves a character that can match neither
the following atom nor `%`), so the backtracking regex engine reduces to this
deterministic scanner. -/
def matchPct (l : Str) : Option (Str × ℕ) :=
  let d1 := l.takeWhile isDigitC
  let r1 := l.dropWhile isDigitC
  if d1 = [] then none
  else
    match r1 with
    | '.' :: r2 =>
      let d2 := r2.takeWhile isDigitC
      let r3 := r2.dropWhile isDigitC
      let w := r3.takeWhile isWs
      (match r3.dropWhile isWs with
       | '%' :: _ => some (d1 ++ '.' :: d2, d1.length + 1 + d2.length + w.length)
       | _ => none)
    | _ =>
      let w := r1.takeWhile isWs
      (match r1.dropWhile isWs with
       | '%' :: _ => some (d1, d1.length + w.length)
       | _ => none)

/-- Recursion core of `scanPct`, structural in a fuel bound on the remaining
length (a match consumes at least one character, a failure advances by one);
the zero-fuel fallback is unreachable from `scanPct`. -/
def scanPctF : ℕ → Str → List Str
  | _, [] => []
  | 0, _ :: _ => []
  | f + 1, c :: cs =>
    match matchPct (c :: cs) with
    | some (cap, n) => cap :: scanPctF f (cs.drop n)
    | none => scanPctF f cs

/-- Python `re.findall(r'([0-9]+\.?[0-9]*)\s*%', text)`: scan left to right,
emit each capture, resume after the match. -/
def scanPct (s : Str) : List Str := scanPctF s.length s

/-- One attempted match of `\$([0-9,]+\.?[0-9]*)` at the head of `l`:
`some (capture, consumed - 1)`. Nothing follows the optional-dot tail, so the
greedy choices always succeed once `[0-9,]+` is non-empty. -/
def matchPrice : Str → Option (Str × ℕ)
  | '$' :: cs =>
    let d1 := cs.takeWhile isPriceChar
    let r1 := cs.dropWhile isPriceChar
    if d1 = [] then none
    else
      match r1 with
      | '.' :: r2 => some (d1 ++ '.' :: r2.takeWhile isDigitC, d1.length + 1 + (r2.takeWhile isDigitC).length)
      | _ => some (d1, d1.length)
  | _ => none

/-- Recursion core of `scanPrice`, structural in a fuel bound on the
remaining length; the zero-fuel fallback is unreachable from `scanPrice`. -/
def scanPriceF : ℕ → Str → List Str
  | _, [] => []
  | 0, _ :: _ => []
  | f + 1, c :: cs =>
    match matchPrice (c :: cs) with
    | some (cap, n) => cap :: scanPriceF f (cs.drop n)
    | none => scanPriceF f cs

/-- Python `re.findall(r'\$([0-9,]+\.?[0-9]*)', text)`. -/
def scanPrice (s : Str) : List Str := scanPriceF s.length s

/-- The extracted key data of `extract_key_data` (utils.py). Only the two
fields any claim mentions are carried; `companies`, `dates` and `quarters`
are computed the same way in the source but referenced by no claim and by no
downstream code path embedded here. -/
structure KeyData where
  prices : List Str
  percentages : List Str
deriving DecidableEq

/-- Embeds `extract_key_data` (utils.py): price captures exclude the `$`,
percentage captures exclude the `%` (the regex groups stop before the sign);
both lists are capped at 5. -/
def extract_key_data (text : Str) : KeyData :=
  { prices := (scanPrice text).take 5
    percentages := (scanPct text).take 5 }

/-- Stopword set `filler_words` of `generate_short_title` (utils.py). -/
def filler_words : List Str :=
  (["the", "a", "an", "and", "or", "but", "in", "on", "at", "to", "for", "of", "with",
    "by", "is", "are", "was", "were", "be", "been", "being", "have", "has", "had",
    "do", "does", "did", "will", "would", "could", "should", "may", "might", "can",
    "this", "that", "these", "those", "it", "its", "they", "them", "their", "there",
    "here", "where", "when", "how", "why", "what", "which", "who", "whom", "whose",
    "very", "much", "many", "most", "more", "some", "any", "all", "each", "every",
    "as", "so", "too", "also", "just", "only", "even", "still", "yet", "already",
    "than", "then", "now", "today", "yesterday", "tomorrow", "said", "says", "about"] :
    List String).map String.data

/-- Score table `action_words_scoring` of `generate_short_title`, held x10 so
the float scores become integers. -/
def action_words_scoring10 : List (Str × ℤ) :=
  (([("announces", 5), ("reports", 3), ("reveals", 4), ("shows", 2), ("confirms", 5),
     ("launches", 8), ("releases", 6), ("beats", 10), ("surges", 10), ("rises", 9),
     ("gains", 8), ("jumps", 10), ("improves", 7), ("accelerates", 9),
     ("outperforms", 10), ("soars", 10), ("climbs", 9), ("expands", 6),
     ("misses", -10), ("falls", -9), ("plunges", -10), ("crashes", -10), ("decreases", -6),
     ("loses", -8), ("declines", -7), ("drops", -6), ("slows", -5), ("cuts", -7),
     ("warns", -9), ("halts", -10), ("underperforms", -10), ("downgrades", -10),
     ("says", 0), ("breaks", 2), ("hits", 3), ("reaches", 4), ("crosses", 3),
     ("meets", 1), ("expects", 1), ("files", 0), ("updates", 1), ("adds", 2),
     ("sets", 2), ("resumes", 3)]) : List (String × ℤ)).map fun p => (p.1.data, p.2)

/-- The `financial_terms` set of `generate_short_title` (distinct from the
hashtag keyword list). -/
def financial_terms_title : List Str :=
  (["bitcoin", "btc", "ethereum", "eth", "crypto", "stock", "market",
    "trading", "price", "earnings", "revenue", "profit", "loss", "fed",
    "interest", "rate", "inflation", "gdp", "unemployment", "dollar",
    "euro", "currency", "bond", "yield", "nasdaq", "sp500", "dow"] :
    List String).map String.data

/-- Python `\w` (ASCII): letters, digits, underscore. -/
def isWordChar (c : Char) : Bool := c.isAlphanum || c = '_'

/-- The cleaned form of a candidate word: `re.sub(r'[^\w]', '', word.lower())`. -/
def cleanWord (w : Str) : Str := (w.map Char.toLower).filter isWordChar

/-- Score assigned by `generate_short_title` to the word at position `i` with
original spelling `orig` and cleaned form `clean`, held x10. -/
def wordScore10 (i : ℕ) (orig clean : Str) : ℤ :=
  (if i < 5 then 30 else if i < 10 then 20 else if i < 15 then 10 else 0)
  + (if (orig.headD ' ').isUpper then 20 else 0)
  + (((action_words_scoring10.find? fun p => p.1 == clean).map Prod.snd).getD 0)
  + (if clean ∈ financial_terms_title then 30 else 0)
  + (if (orig.headD ' ').isUpper ∧ 1 < orig.length then 10 else 0)

/-- The `word_scores` dict of `generate_short_title` as a position-ordered
association list: filler words and words whose cleaned form is empty are
skipped, every other word gets its score, keyed by its original position. -/
def wordScores (text : Str) : List (ℕ × ℤ) :=
  (pySplit text).enum.filterMap fun p =>
    if cleanWord p.2 = [] ∨ cleanWord p.2 ∈ filler_words then none
    else some (p.1, wordScore10 p.1 p.2 (cleanWord p.2))

/-- Sort key `(-score, position)` of `sorted(word_scores.items(), ...)`:
higher score first, earlier position first on ties. -/
def keyRel (a b : ℕ × ℤ) : Prop := b.2 < a.2 ∨ (a.2 = b.2 ∧ a.1 ≤ b.1)

instance : DecidableRel keyRel :=
  fun a b => inferInstanceAs (Decidable (b.2 < a.2 ∨ (a.2 = b.2 ∧ a.1 ≤ b.1)))

instance : IsTotal (ℕ × ℤ) keyRel :=
  ⟨fun a b => by unfold keyRel; omega⟩

instance : IsTrans (ℕ × ℤ) keyRel :=
  ⟨fun a b c hab hbc => by unfold keyRel at *; omega⟩

/-- The two selection passes of `generate_short_title`: sort candidates by
`(-score, position)`, keep the first `max_words`, then sort the kept positions
back into ascending textual order. -/
def titleIndices (text : Str) (max_words : ℕ) : List ℕ :=
  List.insertionSort (· ≤ ·)
    (((List.insertionSort keyRel (wordScores text)).take max_words).map Prod.fst)

/-- Embeds `generate_short_title` (utils.py). The guard
`if not text or not text.strip()` collapses to `pyStrip text = []` (the strip
of the empty string is empty). The final `title or "News Update"` is the last
`if`. -/
def generate_short_title (text : Str) (max_words : ℕ) : Str :=
  if pyStrip text = [] then "News Update".data
  else
    let ows := pySplit text
    if wordScores text = [] then joinSp (ows.take max_words)
    else
      let title := normSpaces (pyStrip (joinSp
        ((titleIndices text max_words).map fun i => ows.getD i [])))
      if title = [] then "News Update".data else title

/-- Boolean prefix test on character lists. -/
def isPrefOfL : Str → Str → Bool
  | [], _ => true
  | _ :: _, [] => false
  | a :: as, b :: bs => a == b && isPrefOfL as bs

/-- Boolean substring test on character lists: Python `needle in haystack`. -/
def isSubL (p : Str) : Str → Bool
  | [] => p == []
  | c :: t => isPrefOfL p (c :: t) || isSubL p t

/-- Keyword list `financial_keywords` of `generate_hashtags` (utils.py),
duplicates kept verbatim. -/
def financial_keywords : List Str :=
  (["bitcoin", "crypto", "stock", "trading", "market", "investment", "finance",
    "earnings", "tech", "ai", "startup", "ethereum", "btc", "eth", "crypto",
    "stock", "market", "trading", "price", "earnings", "revenue", "profit",
    "loss", "fed", "interest", "rate", "inflation", "gdp", "unemployment",
    "dollar", "euro", "currency", "bond", "yield", "nasdaq", "sp500", "dow"] :
    List String).map String.data

/-- The five generic hashtags `base_hashtags` of `generate_hashtags`. -/
def base_hashtags : List Str :=
  (["#News", "#Finance", "#Trading", "#Market", "#Investment"] : List String).map String.data

/-- Python `word.title()` restricted to the tokens it is applied to here:
every member of `financial_keywords` is a single lowercase alphanumeric run,
on which `title()` just uppercases the first character. -/
def capitalizeW : Str → Str
  | [] => []
  | c :: t => c.toUpper :: t

/-- Embeds `generate_hashtags` (utils.py). `wordTok` is nltk `word_tokenize`;
`setOrder` models the iteration order of Python `list(set(...))` (some
duplicate-free reordering); `padChoice k` models the k-th result of
`random.choice(base_hashtags)` in the padding `while` loop, whose iteration
count is `min_count` minus the current length. -/
def generate_hashtags (wordTok : Str → List Str) (setOrder : List Str → List Str)
    (padChoice : ℕ → Str) (text : Str) (min_count max_count : ℕ) : List Str :=
  let words := wordTok (text.map Char.toLower)
  let relevant := words.filter (· ∈ financial_keywords)
  let hs := ((relevant.take 3).map fun w => '#' :: capitalizeW w) ++ base_hashtags
  let hs := (setOrder hs).take max_count
  hs ++ (List.range (min_count - hs.length)).map padChoice

/-- The `keywords` entries of `FINANCIAL_STORY_TYPES` (config.py), in dict
iteration (insertion) order. The slang template lists of the table are read
into a variable `_analyze_story_context`'s callers never use and are omitted. -/
def financial_story_types : List (Str × List Str) :=
  [("crypto".data,
    (["bitcoin", "btc", "ethereum", "eth", "crypto", "blockchain", "defi", "nft",
      "token", "coin", "doge", "ada", "sol", "l2", "airdrops"] : List String).map String.data),
   ("stock_earnings".data,
    (["earnings", "eps", "revenue", "quarterly", "q1", "q2", "q3", "q4",
      "guidance", "beat", "miss", "forward outlook"] : List String).map String.data),
   ("stock_movement".data,
    (["stock", "share", "equity", "nyse", "nasdaq", "trading", "volume",
      "price action", "pre-market", "after-hours"] : List String).map String.data),
   ("fed_policy".data,
    (["fed", "federal reserve", "interest rate", "jerome powell", "fomc",
      "monetary policy", "inflation", "cpi", "core pce"] : List String).map String.data),
   ("market_general".data,
    (["market", "spy", "qqq", "dow", "nasdaq", "s&p", "index", "volatility",
      "vix", "macro"] : List String).map String.data)]

/-- Keyword hits of one category: `sum(1 for keyword in keywords if keyword in
combined_text)`. -/
def countMatches (combined : Str) (kws : List Str) : ℕ :=
  (kws.filter fun k => isSubL k combined).length

/-- The story-type selection shared by `_analyze_story_context` (core.py) and
`analyze_story_context` (utils.py): running best starts at
`('market_general', 0)` and is replaced only on a strictly greater count. -/
def analyze_story_type (text summary : Str) : Str :=
  let combined := (text ++ ' ' :: summary).map Char.toLower
  (financial_story_types.foldl
    (fun acc p =>
      let m := countMatches combined p.2
      if acc.2 < m then (p.1, m) else acc)
    ("market_general".data, 0)).1

/-- Category selection as the spec's words state it: the category with the
highest keyword count, ties broken in favor of the category seen first in
table iteration order, the designated default when every count is zero.
Stated independently of the fold above so the two can be proved equal. -/
def specStoryType (text summary : Str) : Str :=
  let combined := (text ++ ' ' :: summary).map Char.toLower
  let counts := financial_story_types.map fun p => (p.1, countMatches combined p.2)
  let mx := (counts.map Prod.snd).foldr max 0
  if mx = 0 then "market_general".data
  else ((counts.find? fun q => q.2 == mx).map Prod.fst).getD ("market_general".data)

/-- Embeds `NewsArticleSummarizer._analyze_sentiment` (core.py). The sentiment
service returns its label list, `none` modelling a raised exception; a raise,
a non-list result and an empty list all map to `'neutral'`, otherwise the
first label is lowercased and searched for `'positive'` / `'negative'`. -/
def analyze_sentiment (svc : Str → Option (List Str)) (text : Str) : Str :=
  match svc text with
  | none => "neutral".data
  | some [] => "neutral".data
  | some (lab :: _) =>
    let l := lab.map Char.toLower
    if isSubL "positive".data l then "positive".data
    else if isSubL "negative".data l then "negative".data
    else "neutral".data

/-- Python `'. '.join(parts) + '.'` used by the analysis and insight builders. -/
def joinDot (l : List Str) : Str := (List.intercalate ('.' :: ' ' :: []) l) ++ ['.']

/-- Embeds `NewsArticleSummarizer._create_factual_opening` (core.py): the first
two sentences longer than five words among the first three, capped at 40
words; otherwise the summary up to its first period. The `key_data` argument
is accepted and never read, exactly as in the source. -/
def create_factual_opening (sentTok : Str → List Str) (text summary : Str)
    (key_data : KeyData) : Str :=
  let _ := key_data
  let key_sentences := ((sentTok text).take 3).filterMap fun s =>
    if 5 < (pySplit s).length then some (pyStrip s) else none
  match key_sentences with
  | [] => ((summary.splitOn '.').headD []) ++ ['.']
  | _ =>
    let opening := joinSp (key_sentences.take 2)
    if 40 < (pySplit opening).length then joinSp ((pySplit opening).take 40)
    else opening

/-- The five fixed phrases of `_get_professional_transition` (core.py);
`choose` models `random.choice`. -/
def get_professional_transition (choose : List Str → Str)
    (story_type sentiment : Str) : Str :=
  let _ := story_type
  let _ := sentiment
  choose ((["From a technical standpoint, we\x27re seeing",
            "From a trading perspective, this signals",
            "Looking at the charts, we\x27re observing",
            "From a market structure standpoint, we\x27re seeing",
            "Technically speaking, this indicates"] : List String).map String.data)

/-- Embeds `NewsArticleSummarizer._create_trading_analysis` (core.py):
fragments selected by (story type, sentiment), then correlation fragments,
joined with `'. '` and a final period. The `slang_phrases` table lookup of
the source is dead (assigned, never used) and omitted; `summary` and
`key_data` are likewise never read. -/
def create_trading_analysis (summary : Str) (key_data : KeyData)
    (story_type sentiment : Str) : Str :=
  let _ := summary
  let _ := key_data
  let mixedA : Str := "mixed signals with some assets holding stronger than others 📊".data
  let mixedB : Str :=
    "Volume patterns are telling the real story here - institutional flows vs retail sentiment".data
  let head2 : List Str :=
    if story_type = "crypto".data then
      (if sentiment = "positive".data then [mixedA, mixedB]
       else if sentiment = "negative".data then
        ["bearish divergence forming across major timeframes 📉".data,
         "Smart money is likely de-risking while retail still holds bags".data]
       else [mixedA, mixedB])
    else if story_type = "stock_earnings".data then
      (if sentiment = "positive".data then
        ["earnings momentum typically drives multi-quarter outperformance".data,
         "Options flow is showing heavy call activity from institutional players".data]
       else
        ["earnings disappointment often creates oversold bounce opportunities".data,
         "Put/call ratios are elevated, suggesting capitulation might be near".data])
    else [mixedA, mixedB]
  let tail2 : List Str :=
    if story_type = "crypto".data then
      ["BTC and ETH correlation remains strong, but alt performance is diverging".data,
       "Alt coin resilience during macro uncertainty often signals underlying strength".data]
    else
      ["Sector rotation patterns are giving us clues about where smart money is positioning".data]
  joinDot (head2 ++ tail2)

/-- Embeds `NewsArticleSummarizer._create_actionable_insights` (core.py). -/
def create_actionable_insights (story_type sentiment : Str) (key_data : KeyData)
    (text : Str) : Str :=
  let _ := key_data
  let _ := text
  let rangeA : Str :=
    "Range-bound trading may persist until clearer directional catalysts emerge".data
  let rangeB : Str :=
    "Range traders have solid opportunities between established support/resistance levels ⏰".data
  let insights : List Str :=
    if story_type = "crypto".data then
      (if sentiment = "positive".data then
        ["Momentum plays are setting up nicely for continuation".data,
         "DeFi tokens might catch a bid if this keeps up ⚡".data]
       else if sentiment = "negative".data then
        ["Bounce plays might emerge from oversold levels".data,
         "Risk management is key - size down until volatility subsides".data]
       else [rangeA, rangeB])
    else if story_type = "stock_earnings".data then
      (if sentiment = "positive".data then
        ["Earnings momentum trades typically have 2-3 week windows".data,
         "Look for sector peers to follow suit with similar beats".data]
       else
        ["Oversold bounces often happen 2-3 sessions after earnings dumps".data,
         "Wait for capitulation volume before considering entries".data])
    else [rangeA, rangeB]
  joinDot insights

/-- Embeds `NewsArticleSummarizer._create_simplified_analysis` (core.py):
the nested `templates.get(sentiment, {}).get(story_type, default)` lookup. -/
def create_simplified_analysis (sentiment story_type : Str) : Str :=
  let dflt : Str :=
    "Mixed signals in the market. Playing defensive until clearer direction emerges.".data
  if sentiment = "positive".data then
    (if story_type = "stocks".data then
      "bullish momentum building 📈. Smart money accumulating on dips. Institutional flows looking strong fr. Risk-on sentiment driving the rally.".data
     else if story_type = "crypto".data then
      "absolutely sending it 🚀. Bulls woke up and chose violence. Diamond hands paying off. DeFi yields still attractive for those hunting alpha.".data
     else dflt)
  else if sentiment = "negative".data then
    (if story_type = "stocks".data then
      "bearish divergence forming across major timeframes 📉. Smart money is likely de-risking while retail still holds bags. Risk management is key.".data
     else if story_type = "crypto".data then
      "getting absolutely rekt. Major support levels breaking down. Hodlers crying in the club rn. Wait for oversold bounce before re-entry.".data
     else dflt)
  else if sentiment = "neutral".data then
    (if story_type = "stocks".data then
      "trading sideways in a tight range. Volume declining, waiting for catalysts. Scalp opportunities emerging but keep positions small.".data
     else if story_type = "crypto".data then
      "crabbing hard in this range. DeFi farming still viable. Layer 2 tokens showing relative strength vs majors.".data
     else dflt)
  else dflt

/-- The external collaborators of the pipeline, each an explicit function:
the text normalizer (HTML/entity stripping, declared out of scope by the spec
and specified only at its interface), the exact tokenizer length, the two nltk
tokenizers, the two model services, Python `list(set(...))` iteration order,
and the two uses of `random.choice`. -/
structure Services where
  cleanText : Str → Str
  encodeLen : Str → ℕ
  sentTok : Str → List Str
  wordTok : Str → List Str
  summarize : Summarizer
  sentiment : Str → Option (List Str)
  setOrder : List Str → List Str
  choose : List Str → Str
  padChoice : ℕ → Str

/-- Embeds `NewsArticleSummarizer._generate_journalistic_paragraph` (core.py):
returns (paragraph, sentiment). The fast-mode branch uses a fixed transition
and keyword tests on the lowercased text; the standard branch assembles the
four parts. `filter(None, components)` drops empty parts before the join.
The `main_subject` of `_analyze_story_context` is computed and never used by
this caller, so it is not embedded. -/
def generate_journalistic_paragraph (S : Services) (fastMode : Bool)
    (text summary : Str) : Str × Str :=
  if fastMode then
    let sentiment := analyze_sentiment S.sentiment summary
    let factual_opening := create_factual_opening S.sentTok text summary ⟨[], []⟩
    let transition : Str := "Looking at the charts, we\x27re observing".data
    let lower := text.map Char.toLower
    let story_type : Str :=
      if isSubL "tesla".data lower || isSubL "musk".data lower then "stocks".data
      else if isSubL "bitcoin".data lower || isSubL "crypto".data lower
              || isSubL "ethereum".data lower then "crypto".data
      else "stocks".data
    let trading_analysis := create_simplified_analysis sentiment story_type
    (joinSp (([factual_opening, transition, trading_analysis].filter (· ≠ []))), sentiment)
  else
    let key_data := extract_key_data text
    let story_type := analyze_story_type text summary
    let sentiment := analyze_sentiment S.sentiment text
    let factual_opening := create_factual_opening S.sentTok text summary key_data
    let transition := get_professional_transition S.choose story_type sentiment
    let trading_analysis := create_trading_analysis summary key_data story_type sentiment
    let actionable_insights := create_actionable_insights story_type sentiment key_data text
    (joinSp (([factual_opening, transition, trading_analysis, actionable_insights].filter (· ≠ []))),
     sentiment)

/-- Embeds `NewsArticleSummarizer._generate_bullet_points` (core.py); the
padding `while` loop appends the fixed filler until `min_bullet_points`. The
source's `text` argument is never read and is not carried; the caller
discards the result as well. -/
def generate_bullet_points (sentTok : Str → List Str) (minBP maxBP : ℕ)
    (summary : Str) : List Str :=
  let bps := (sentTok summary).filterMap fun s =>
    if 20 < (pyStrip s).length then
      let ws := pySplit s
      some (if 8 < ws.length then
              "• **".data ++ joinSp (ws.take 4) ++ "** || ".data ++ joinSp (ws.drop 4)
            else "• **".data ++ s.take 30 ++ "** || ".data ++ s)
    else none
  (bps ++ List.replicate (minBP - bps.length)
    "• **Key point about the story** || Additional relevant information from the article.".data).take maxBP

/-- The numeric fields of `SummaryConfig` (config.py); model identifiers only
select which external service is loaded and are carried by `Services`. -/
structure SummaryConfig where
  max_chunk_tokens : ℕ := 1000
  min_bullet_points : ℕ := 3
  max_bullet_points : ℕ := 5
  min_hashtags : ℕ := 3
  max_hashtags : ℕ := 5
  max_title_words : ℕ := 10

/-- The default configuration. -/
def defaultCfg : SummaryConfig := {}

/-- Embeds `NewsArticleSummarizer.summarize_article` (core.py), the pipeline
entry point, as the association list the returned dict literal builds, in the
source's key order. The `title` argument is accepted and never read, as in the
source; the bullet points are computed and discarded, as in the source;
`fastMode` is `isinstance(config, FastSummaryConfig)`. -/
def summarize_article (S : Services) (fastMode : Bool) (cfg : SummaryConfig)
    (title text : Str) : List (Str × Str) :=
  let _ := title
  let cleaned := S.cleanText text
  let base := generate_base_summary S.encodeLen S.sentTok S.summarize cfg.max_chunk_tokens cleaned
  let _bullets := generate_bullet_points S.sentTok cfg.min_bullet_points cfg.max_bullet_points base
  let hashtags := generate_hashtags S.wordTok S.setOrder S.padChoice cleaned
    cfg.min_hashtags cfg.max_hashtags
  let short_title := generate_short_title base cfg.max_title_words
  let ps := generate_journalistic_paragraph S fastMode cleaned base
  [("title".data, short_title), ("sentiment".data, ps.2),
   ("paragraph".data, ps.1), ("hashtags".data, joinSp hashtags)]

/-- Embeds `SummarizeRequest.validate_text_content` (api/models.py): the only
minimum-length check of the system, living in the API request model.
`clean_html_text` is the same out-of-scope substitution pass as `clean_text`
and enters as a parameter; a cleaned, stripped text shorter than 100
characters raises `ValueError` (here: `Except.error`). -/
def validate_text_content (cleanHtml : Str → Str) (v : Str) : Except Str Str :=
  let cleaned := cleanHtml v
  if (pyStrip cleaned).length < 100 then
    Except.error "Text content must be at least 100 characters after HTML cleaning".data
  else Except.ok (pyStrip cleaned)

/-- A usable sentence: it carries at least one non-whitespace character.
`sent_tokenize` never yields whitespace-only sentences; theorems about the
sentence-accumulation path assume this of the splitter parameter. -/
def GoodSent (s : Str) : Prop := ∃ c ∈ s, isWs c = false

instance : DecidablePred GoodSent :=
  fun s => inferInstanceAs (Decidable (∃ c ∈ s, isWs c = false))

/-- What holds of every chunk the sentence-accumulation path emits: its
sentence list is non-empty and made of usable sentences, its text is the
stripped join of those sentences, and it either fits the (x10-scaled) budget
or consists of a single sentence. -/
def ChunkOk (L : ℕ) (p : Str × List Str) : Prop :=
  p.2 ≠ [] ∧ (∀ s ∈ p.2, GoodSent s) ∧ p.1 = pyStrip (accJoin p.2) ∧
    (sumEst p.2 ≤ L ∨ ∃ s, p.2 = [s])

/-- A concrete stand-in for the sentence splitter in witnesses and
counterexamples: split after each period, skipping following whitespace,
keeping the period with its sentence (as nltk `sent_tokenize` does). The fuel
argument is a structural length bound; the zero-fuel fallback is unreachable
from `demoSentTok`. -/
def demoSentTokAux : ℕ → Str → Str → List Str
  | _, [], acc => if acc = [] then [] else [acc.reverse]
  | 0, _ :: _, acc => if acc = [] then [] else [acc.reverse]
  | f + 1, '.' :: cs, acc => ('.' :: acc).reverse :: demoSentTokAux f (cs.dropWhile isWs) []
  | f + 1, c :: cs, acc => demoSentTokAux f cs (c :: acc)

/-- Sentence-splitter stand-in, see `demoSentTokAux`. -/
def demoSentTok (t : Str) : List Str := demoSentTokAux t.length t []

/-- A realistic stand-in for the exact tokenizer length in counterexamples:
one token per word plus the end-of-sequence marker. -/
def wordsPlusOne (s : Str) : ℕ := (pySplit s).length + 1

/-- A two-sentence text of 12 short words: its exact token count (13, one per
word plus the end marker) fits a 13-token budget while its word-count-based
estimate (1.3 x 12 = 15.6 tokens) exceeds it. -/
def ceText : Str := "a a a a a a. b b b b b b.".data

/-- Scenario D's body: contains `50% surge` and `$120` as standalone numeric
tokens. -/
def c3Body : Str := "Shares saw a 50% surge to $120 in morning trading.".data

/-- A text whose only non-filler word, `misses` at position 15, scores
negatively (-1.0 action score, no position or capitalization bonus): no word
scores positively, yet the candidate dict is non-empty. -/
def c6Text : Str :=
  "the the the the the the the the the the the the the the the misses".data

/-- Concrete collaborators for witnesses and counterexamples: identity
normalizer, one-token tokenizer, the demo sentence splitter, an empty word
tokenizer, a succeeding sentiment service with an empty label list, first-kept
deduplication for set order, and fixed random choices. -/
def demoServices (summ : Summarizer) : Services :=
  { cleanText := id
    encodeLen := fun _ => 1
    sentTok := demoSentTok
    wordTok := fun _ => []
    summarize := summ
    sentiment := fun _ => some []
    setOrder := fun l => l.dedup
    choose := fun l => l.headD []
    padChoice := fun _ => "#News".data }

end NewsSum

namespace NewsSum

/-! Splitting, joining and stripping: the lemmas relating `pySplit`, `joinSp`,
`accJoin`, `pyStrip` and `normSpaces` that the chunking and title claims
need. -/

theorem pySplitAux_mem_clean {s cur : Str} (hcur : ∀ c ∈ cur, isWs c = false) :
    ∀ w ∈ pySplitAux s cur, w ≠ [] ∧ ∀ c ∈ w, isWs c = false := by
  induction s generalizing cur with
  | nil =>
    intro w hw
    by_cases h : cur = []
    · simp [pySplitAux, h] at hw
    · simp only [pySplitAux, if_neg h] at hw
      simp only [List.mem_singleton] at hw
      subst hw
      refine ⟨by simpa using h, ?_⟩
      intro c hc
      exact hcur c (List.mem_reverse.mp hc)
  | cons a s ih =>
    intro w hw
    simp only [pySplitAux] at hw
    by_cases ha : isWs a
    · rw [if_pos ha] at hw
      by_cases h : cur = []
      · rw [if_pos h] at hw
        exact ih (by simp) w hw
      · rw [if_neg h] at hw
        rcases List.mem_cons.mp hw with h1 | h1
        · subst h1
          refine ⟨by simpa using h, ?_⟩
          intro c hc
          exact hcur c (List.mem_reverse.mp hc)
        · exact ih (by simp) w h1
    · rw [if_neg ha] at hw
      refine ih ?_ w hw
      intro c hc
      rcases List.mem_cons.mp hc with h1 | h1
      · subst h1; simpa using ha
      · exact hcur c h1

theorem pySplit_mem_clean {s : Str} :
    ∀ w ∈ pySplit s, w ≠ [] ∧ ∀ c ∈ w, isWs c = false :=
  pySplitAux_mem_clean (by simp)

theorem pySplitAux_append_sep (xs ys cur : Str) :
    pySplitAux (xs ++ ' ' :: ys) cur = pySplitAux xs cur ++ pySplitAux ys [] := by
  induction xs generalizing cur with
  | nil =>
    show pySplitAux (' ' :: ys) cur = _
    simp only [pySplitAux]
    have hws : isWs ' ' = true := by decide
    rw [if_pos hws]
    by_cases h : cur = [] <;> simp [h]
  | cons a xs ih =>
    show pySplitAux (a :: (xs ++ ' ' :: ys)) cur = pySplitAux (a :: xs) cur ++ _
    simp only [pySplitAux]
    by_cases ha : isWs a
    · rw [if_pos ha, if_pos ha]
      by_cases h : cur = [] <;> simp [h, ih]
    · rw [if_neg ha, if_neg ha]
      exact ih (a :: cur)

theorem pySplit_append_sep (xs ys : Str) :
    pySplit (xs ++ ' ' :: ys) = pySplit xs ++ pySplit ys :=
  pySplitAux_append_sep xs ys []

theorem pySplitAux_word {w : Str} (hw : ∀ c ∈ w, isWs c = false) (cur : Str) :
    pySplitAux w cur =
      if cur.reverse ++ w = [] then [] else [cur.reverse ++ w] := by
  induction w generalizing cur with
  | nil =>
    simp only [pySplitAux, List.append_nil]
    by_cases h : cur = [] <;> simp [h]
  | cons a w ih =>
    have ha : isWs a = false := hw a (by simp)
    simp only [pySplitAux, ha, Bool.false_eq_true, if_false]
    rw [ih (fun c hc => hw c (by simp [hc])) (a :: cur)]
    simp

theorem pySplit_word {w : Str} (hne : w ≠ []) (hw : ∀ c ∈ w, isWs c = false) :
    pySplit w = [w] := by
  unfold pySplit
  rw [pySplitAux_word hw []]
  simp [hne]

theorem joinSp_cons {w : Str} {ws : List Str} (h : ws ≠ []) :
    joinSp (w :: ws) = w ++ ' ' :: joinSp ws := by
  cases ws with
  | nil => exact absurd rfl h
  | cons x t => rfl

theorem pySplit_joinSp_flatten (l : List Str) :
    pySplit (joinSp l) = (l.map pySplit).flatten := by
  induction l with
  | nil => simp [joinSp, pySplit, pySplitAux]
  | cons w ws ih =>
    cases ws with
    | nil => simp [joinSp]
    | cons x t =>
      rw [joinSp_cons (by simp), pySplit_append_sep]
      simp [ih]

theorem pySplit_joinSp {l : List Str}
    (h : ∀ w ∈ l, w ≠ [] ∧ ∀ c ∈ w, isWs c = false) :
    pySplit (joinSp l) = l := by
  rw [pySplit_joinSp_flatten]
  induction l with
  | nil => simp
  | cons w ws ih =>
    have hw := h w (by simp)
    simp only [List.map_cons, List.flatten_cons]
    rw [pySplit_word hw.1 hw.2, ih (fun x hx => h x (by simp [hx]))]
    simp

theorem joinSp_glue (c s : Str) (t : List Str) :
    joinSp ((c ++ ' ' :: s) :: t) = joinSp (c :: s :: t) := by
  cases t with
  | nil => simp [joinSp]
  | cons y t' =>
    rw [joinSp_cons (w := c ++ ' ' :: s) (by simp), joinSp_cons (w := c) (by simp),
      joinSp_cons (w := s) (by simp)]
    simp

theorem accJoin_from {c : Str} (hc : c ≠ []) (l : List Str) :
    l.foldl (fun c s => if c = [] then s else c ++ ' ' :: s) c = joinSp (c :: l) := by
  induction l generalizing c with
  | nil => simp [joinSp]
  | cons s t ih =>
    simp only [List.foldl_cons, if_neg hc]
    rw [ih (by simp), joinSp_glue]

theorem accJoin_cons {w : Str} (hw : w ≠ []) (l : List Str) :
    accJoin (w :: l) = joinSp (w :: l) := by
  unfold accJoin
  simp only [List.foldl_cons, if_pos rfl]
  exact accJoin_from hw l

theorem accJoin_cons_ne {w : Str} (hw : w ≠ []) (l : List Str) :
    accJoin (w :: l) ≠ [] := by
  rw [accJoin_cons hw]
  cases l with
  | nil => simpa [joinSp]
  | cons x t => rw [joinSp_cons (by simp)]; simp [hw]

theorem pySplitAux_all_ws {t : Str} (ht : ∀ c ∈ t, isWs c = true) (cur : Str) :
    pySplitAux t cur = if cur = [] then [] else [cur.reverse] := by
  induction t generalizing cur with
  | nil => rfl
  | cons a t ih =>
    have ha : isWs a = true := ht a (by simp)
    simp only [pySplitAux, ha, if_pos]
    have h0 : pySplitAux t [] = [] := by
      rw [ih (fun c hc => ht c (by simp [hc])) []]
      simp
    by_cases h : cur = [] <;> simp [h, h0]

theorem pySplitAux_append_ws {t : Str} (ht : ∀ c ∈ t, isWs c = true) :
    ∀ (s cur : Str), pySplitAux (s ++ t) cur = pySplitAux s cur := by
  intro s
  induction s with
  | nil =>
    intro cur
    rw [List.nil_append, pySplitAux_all_ws ht cur]
    rfl
  | cons a s ih =>
    intro cur
    show pySplitAux (a :: (s ++ t)) cur = pySplitAux (a :: s) cur
    simp only [pySplitAux]
    by_cases ha : isWs a
    · simp only [if_pos ha, ih]
    · simp only [if_neg ha, ih]

theorem pySplitAux_dropWhile_ws (s : Str) :
    pySplitAux (s.dropWhile isWs) [] = pySplitAux s [] := by
  induction s with
  | nil => rfl
  | cons a s ih =>
    by_cases ha : isWs a
    · rw [List.dropWhile_cons_of_pos ha]
      rw [ih]
      show _ = pySplitAux (a :: s) []
      simp [pySplitAux, ha]
    · rw [List.dropWhile_cons_of_neg (by simpa using ha)]

theorem pySplit_pyStrip (s : Str) : pySplit (pyStrip s) = pySplit s := by
  unfold pySplit pyStrip
  set u := s.dropWhile isWs with hu
  have hdecomp : u = (u.reverse.dropWhile isWs).reverse ++ (u.reverse.takeWhile isWs).reverse := by
    conv_lhs => rw [← List.reverse_reverse u]
    rw [← List.reverse_append, List.takeWhile_append_dropWhile]
  have hws : ∀ c ∈ (u.reverse.takeWhile isWs).reverse, isWs c = true := by
    intro c hc
    exact List.mem_takeWhile_imp (List.mem_reverse.mp hc)
  calc pySplitAux (u.reverse.dropWhile isWs).reverse []
      = pySplitAux ((u.reverse.dropWhile isWs).reverse ++ (u.reverse.takeWhile isWs).reverse) [] := by
        rw [pySplitAux_append_ws hws]
    _ = pySplitAux u [] := by rw [← hdecomp]
    _ = pySplitAux s [] := pySplitAux_dropWhile_ws s

theorem pySplitAux_normSpacesF : ∀ (n : ℕ) (s : Str), s.length ≤ n →
    ∀ cur, pySplitAux (normSpacesF n s) cur = pySplitAux s cur := by
  intro n
  induction n with
  | zero =>
    intro s hs cur
    have : s = [] := List.length_eq_zero.mp (Nat.le_zero.mp hs)
    subst this
    rfl
  | succ n ih =>
    intro s hs cur
    cases s with
    | nil => rfl
    | cons a s =>
      by_cases ha : isWs a
      · rw [show normSpacesF (n + 1) (a :: s) = ' ' :: normSpacesF n (s.dropWhile isWs) by
          rw [normSpacesF]; simp [ha]]
        show pySplitAux (' ' :: normSpacesF n (s.dropWhile isWs)) cur = pySplitAux (a :: s) cur
        simp only [pySplitAux, if_pos ha, show isWs ' ' = true from by decide, if_pos]
        have hlen : (s.dropWhile isWs).length ≤ n :=
          le_trans (List.dropWhile_sublist _).length_le (Nat.succ_le_succ_iff.mp hs)
        have h1 : pySplitAux (normSpacesF n (s.dropWhile isWs)) [] = pySplitAux s [] := by
          rw [ih _ hlen, pySplitAux_dropWhile_ws]
        by_cases h : cur = [] <;> simp [h, h1]
      · rw [show normSpacesF (n + 1) (a :: s) = a :: normSpacesF n s by
          rw [normSpacesF]; simp [ha]]
        show pySplitAux (a :: normSpacesF n s) cur = pySplitAux (a :: s) cur
        simp only [pySplitAux, if_neg ha]
        exact ih s (Nat.succ_le_succ_iff.mp hs) (a :: cur)

theorem pySplit_normSpaces (s : Str) : pySplit (normSpaces s) = pySplit s :=
  pySplitAux_normSpacesF s.length s (Nat.le_refl _) []

theorem pySplitAux_eq_nil {s : Str} :
    ∀ {cur : Str}, pySplitAux s cur = [] → cur = [] ∧ ∀ c ∈ s, isWs c = true := by
  induction s with
  | nil =>
    intro cur h
    by_cases hc : cur = []
    · exact ⟨hc, by simp⟩
    · rw [pySplitAux, if_neg hc] at h; simp at h
  | cons a s ih =>
    intro cur h
    rw [pySplitAux] at h
    by_cases ha : isWs a
    · rw [if_pos ha] at h
      by_cases hc : cur = []
      · rw [if_pos hc] at h
        refine ⟨hc, ?_⟩
        intro c hc'
        rcases List.mem_cons.mp hc' with h1 | h1
        · subst h1; exact ha
        · exact (ih h).2 c h1
      · rw [if_neg hc] at h; simp at h
    · rw [if_neg ha] at h
      have := (ih h).1
      simp at this

theorem pySplit_ne_nil {s : Str} {c : Char} (hc : c ∈ s) (hw : isWs c = false) :
    pySplit s ≠ [] := by
  intro h
  have := (pySplitAux_eq_nil h).2 c hc
  rw [hw] at this
  exact Bool.false_ne_true this

theorem pyStrip_ne_nil {s : Str} {c : Char} (hc : c ∈ s) (hw : isWs c = false) :
    pyStrip s ≠ [] := by
  intro h
  have h2 : pySplit (pyStrip s) = [] := by rw [h]; rfl
  rw [pySplit_pyStrip] at h2
  exact pySplit_ne_nil hc hw h2

/-! The greedy chunking loop: every emitted chunk is `ChunkOk`, and the chunk
sentence lists concatenate back to the input sentence sequence. -/

theorem GoodSent.ne_nil {s : Str} (h : GoodSent s) : s ≠ [] := by
  obtain ⟨c, hc, -⟩ := h
  intro he
  rw [he] at hc
  exact (List.not_mem_nil c) hc

theorem sumEst_append (l : List Str) (s : Str) :
    sumEst (l ++ [s]) = sumEst l + estTokens10 s := by
  simp [sumEst]

theorem accJoin_good_ne {g : List Str} (hg : g ≠ []) (hgood : ∀ s ∈ g, GoodSent s) :
    accJoin g ≠ [] := by
  cases g with
  | nil => exact absurd rfl hg
  | cons w l => exact accJoin_cons_ne (hgood w (by simp)).ne_nil l

theorem chunkRun (L : ℕ) :
    ∀ (sents : List Str) (out : List (Str × List Str)) (cur : List Str) (tok : ℕ),
    (∀ s ∈ sents, GoodSent s) →
    (∀ s ∈ cur, GoodSent s) →
    tok = sumEst cur →
    (cur = [] ∨ sumEst cur ≤ L ∨ ∃ s, cur = [s]) →
    (∀ p ∈ out, ChunkOk L p) →
    (∀ p ∈ chunkFinish (sents.foldl (chunkStep L) (out, cur, tok)), ChunkOk L p) ∧
    ((chunkFinish (sents.foldl (chunkStep L) (out, cur, tok))).map Prod.snd).flatten
      = (out.map Prod.snd).flatten ++ (cur ++ sents) := by
  intro sents
  induction sents with
  | nil =>
    intro out cur tok hsent hcur htok hdisj hout
    simp only [List.foldl_nil, chunkFinish]
    by_cases hc : cur = []
    · subst hc
      simp only [accJoin, List.foldl_nil, if_pos rfl]
      exact ⟨hout, by simp⟩
    · rw [if_neg (accJoin_good_ne hc hcur)]
      constructor
      · intro p hp
        rcases List.mem_append.mp hp with h1 | h1
        · exact hout p h1
        · rw [List.mem_singleton] at h1
          subst h1
          refine ⟨hc, hcur, rfl, ?_⟩
          rcases hdisj with h | h | h
          · exact absurd h hc
          · exact Or.inl h
          · exact Or.inr h
      · simp
  | cons hd rest ih =>
    intro out cur tok hsent hcur htok hdisj hout
    simp only [List.foldl_cons]
    show (∀ p ∈ chunkFinish (rest.foldl (chunkStep L) (chunkStep L (out, cur, tok) hd)), ChunkOk L p) ∧ _
    rw [chunkStep]
    by_cases hfit : tok + estTokens10 hd ≤ L
    · rw [if_pos hfit]
      have h1 := ih out (cur ++ [hd]) (tok + estTokens10 hd)
        (fun x hx => hsent x (by simp [hx]))
        (by
          intro x hx
          rcases List.mem_append.mp hx with h | h
          · exact hcur x h
          · rw [List.mem_singleton] at h; rw [h]; exact hsent hd (by simp))
        (by rw [sumEst_append, htok])
        (Or.inr (Or.inl (by rw [sumEst_append, ← htok]; exact hfit)))
        hout
      refine ⟨h1.1, ?_⟩
      rw [h1.2]
      simp
    · rw [if_neg hfit]
      by_cases hc : cur = []
      · subst hc
        have hacc : accJoin ([] : List Str) = [] := rfl
        rw [if_pos hacc]
        have h1 := ih out [hd] (estTokens10 hd)
          (fun x hx => hsent x (by simp [hx]))
          (by intro x hx; rw [List.mem_singleton] at hx; rw [hx]; exact hsent hd (by simp))
          (by simp [sumEst])
          (Or.inr (Or.inr ⟨hd, rfl⟩))
          hout
        refine ⟨h1.1, ?_⟩
        rw [h1.2]
        simp
      · rw [if_neg (accJoin_good_ne hc hcur)]
        have hnew : ChunkOk L (pyStrip (accJoin cur), cur) := by
          refine ⟨hc, hcur, rfl, ?_⟩
          rcases hdisj with h | h | h
          · exact absurd h hc
          · exact Or.inl h
          · exact Or.inr h
        have h1 := ih (out ++ [(pyStrip (accJoin cur), cur)]) [hd] (estTokens10 hd)
          (fun x hx => hsent x (by simp [hx]))
          (by intro x hx; rw [List.mem_singleton] at hx; rw [hx]; exact hsent hd (by simp))
          (by simp [sumEst])
          (Or.inr (Or.inr ⟨hd, rfl⟩))
          (by
            intro p hp
            rcases List.mem_append.mp hp with h | h
            · exact hout p h
            · rw [List.mem_singleton] at h; subst h; exact hnew)
        refine ⟨h1.1, ?_⟩
        rw [h1.2]
        simp

theorem chunkPairs_spec (maxTok : ℕ) (sents : List Str)
    (hs : ∀ s ∈ sents, GoodSent s) :
    (∀ p ∈ chunkPairs maxTok sents, ChunkOk (10 * maxTok) p) ∧
    ((chunkPairs maxTok sents).map Prod.snd).flatten = sents := by
  have h := chunkRun (10 * maxTok) sents [] [] 0 hs (by simp) (by simp [sumEst])
    (Or.inl rfl) (by simp)
  rw [chunkPairs]
  exact ⟨h.1, by simpa using h.2⟩

theorem estTokens10_chunk {g : List Str} (hg : g ≠ []) (hgood : ∀ s ∈ g, GoodSent s) :
    estTokens10 (pyStrip (accJoin g)) = sumEst g := by
  cases g with
  | nil => exact absurd rfl hg
  | cons w l =>
    rw [accJoin_cons (hgood w (by simp)).ne_nil]
    unfold estTokens10
    rw [pySplit_pyStrip, pySplit_joinSp_flatten]
    rw [List.length_flatten]
    unfold sumEst estTokens10
    rw [List.map_map]
    induction (w :: l) with
    | nil => simp
    | cons x t iht => simp [Nat.mul_add, *]

/-- Claim C1 (corrected): on the sentence-accumulation path (exact token count
of the whole text over budget) and for usable sentences, the chunks' sentence
lists concatenate back to the original sentence sequence, each chunk is the
stripped space-join of its sentences, each chunk's estimated token count fits
the budget or the chunk is exactly one over-budget sentence, and every
over-budget sentence becomes its own chunk (never dropped). The whole-text
early return, excluded here by `hbig`, is what the counterexample exhibits. -/
theorem chunk_coverage_budget_amended
    (encodeLen : Str → ℕ) (sentTok : Str → List Str) (maxTok : ℕ) (text : Str)
    (hbig : maxTok < encodeLen text)
    (hs : ∀ s ∈ sentTok text, GoodSent s) :
    ((chunkPairs maxTok (sentTok text)).map Prod.snd).flatten = sentTok text
    ∧ chunk_text encodeLen sentTok maxTok text
        = (chunkPairs maxTok (sentTok text)).map Prod.fst
    ∧ (∀ p ∈ chunkPairs maxTok (sentTok text),
        p.1 = pyStrip (accJoin p.2) ∧ p.2 ≠ [] ∧
        (estTokens10 p.1 ≤ 10 * maxTok ∨ ∃ s, p.2 = [s] ∧ 10 * maxTok < estTokens10 s))
    ∧ (∀ s ∈ sentTok text, 10 * maxTok < estTokens10 s →
        ∃ p ∈ chunkPairs maxTok (sentTok text), p.2 = [s]) := by
  have hspec := chunkPairs_spec maxTok (sentTok text) hs
  refine ⟨hspec.2, ?_, ?_, ?_⟩
  · unfold chunk_text
    rw [if_neg (not_le.mpr hbig)]
  · intro p hp
    obtain ⟨hne, hgood, hfst, hbound⟩ := hspec.1 p hp
    refine ⟨hfst, hne, ?_⟩
    have hest : estTokens10 p.1 = sumEst p.2 := by
      rw [hfst]; exact estTokens10_chunk hne hgood
    rcases hbound with h | ⟨s, hsg⟩
    · exact Or.inl (by rw [hest]; exact h)
    · by_cases hle : estTokens10 s ≤ 10 * maxTok
      · refine Or.inl ?_
        rw [hest, hsg]
        simpa [sumEst] using hle
      · exact Or.inr ⟨s, hsg, Nat.lt_of_not_le hle⟩
  · intro s hmem hover
    have : s ∈ ((chunkPairs maxTok (sentTok text)).map Prod.snd).flatten := by
      rw [hspec.2]; exact hmem
    rw [List.mem_flatten] at this
    obtain ⟨gl, hgl, hsgl⟩ := this
    rw [List.mem_map] at hgl
    obtain ⟨p, hp, rfl⟩ := hgl
    obtain ⟨hne, hgood, hfst, hbound⟩ := hspec.1 p hp
    rcases hbound with h | ⟨x, hx⟩
    · exfalso
      have hle : estTokens10 s ≤ sumEst p.2 :=
        List.single_le_sum (by intro y hy; exact Nat.zero_le y) _
          (List.mem_map_of_mem estTokens10 hsgl)
      omega
    · refine ⟨p, hp, ?_⟩
      rw [hx] at hsgl
      rw [List.mem_singleton] at hsgl
      rw [hx, hsgl]

/-- Witness for C1's amended theorem at a concrete splitter, tokenizer, budget
and text. -/
theorem chunk_coverage_budget_amended_witness :
    ((chunkPairs 3 (demoSentTok "Aa bb. cc dd.".data)).map Prod.snd).flatten
        = demoSentTok "Aa bb. cc dd.".data
    ∧ chunk_text (fun _ => 100) demoSentTok 3 "Aa bb. cc dd.".data
        = (chunkPairs 3 (demoSentTok "Aa bb. cc dd.".data)).map Prod.fst
    ∧ (∀ p ∈ chunkPairs 3 (demoSentTok "Aa bb. cc dd.".data),
        p.1 = pyStrip (accJoin p.2) ∧ p.2 ≠ [] ∧
        (estTokens10 p.1 ≤ 10 * 3 ∨ ∃ s, p.2 = [s] ∧ 10 * 3 < estTokens10 s))
    ∧ (∀ s ∈ demoSentTok "Aa bb. cc dd.".data, 10 * 3 < estTokens10 s →
        ∃ p ∈ chunkPairs 3 (demoSentTok "Aa bb. cc dd.".data), p.2 = [s]) :=
  chunk_coverage_budget_amended (fun _ => 100) demoSentTok 3 "Aa bb. cc dd.".data
    (by decide) (by decide)

/-- Counterexample to C1 as stated: with a realistic exact tokenizer (one
token per word plus an end marker) and a 13-token budget, the whole-text early
return emits the two-sentence text `ceText` as a single chunk whose estimated
token count (15.6, scaled: 156 > 130) exceeds the budget, and that chunk is
not a single sentence of the text. -/
theorem chunk_budget_cex :
    chunk_text wordsPlusOne demoSentTok 13 ceText = [ceText]
    ∧ 10 * 13 < estTokens10 ceText
    ∧ ∀ s ∈ demoSentTok ceText, ceText ≠ s := by decide

/-- Claim C8 (corrected): chunking the empty string hits the whole-text early
return whenever the tokenizer's count of `""` fits the budget, giving `[""]`
(one element, the empty string), and gives `[]` only on the (unrealistic)
over-budget branch. -/
theorem chunk_empty_amended (encodeLen : Str → ℕ) (sentTok : Str → List Str)
    (maxTok : ℕ) (hsent : sentTok [] = []) :
    chunk_text encodeLen sentTok maxTok []
      = if encodeLen [] ≤ maxTok then [[]] else [] := by
  unfold chunk_text
  by_cases h : encodeLen [] ≤ maxTok
  · simp [h]
  · simp only [if_neg h, hsent]
    rfl

/-- Witness for C8's amended theorem at a concrete tokenizer and splitter. -/
theorem chunk_empty_amended_witness :
    chunk_text (fun _ => 1) (fun _ => []) 1000 ([] : Str)
      = if (fun (_ : Str) => 1) [] ≤ 1000 then [[]] else [] :=
  chunk_empty_amended (fun _ => 1) (fun _ => []) 1000 rfl

/-- Counterexample to C8 as stated: with any realistic tokenizer (here: the
empty string encodes to one token, far under the 1000-token default budget),
`_chunk_text("")` returns `[""]`, a one-element list, not the empty list. -/
theorem chunk_empty_cex :
    chunk_text (fun _ => 1) (fun _ => []) 1000 ([] : Str) = [[]]
    ∧ chunk_text (fun _ => 1) (fun _ => []) 1000 ([] : Str) ≠ [] := by decide

/-! Facts feeding Scenario C (claim C2): every chunk string is non-empty, the
combining pass keeps lists non-empty, truncations of non-empty strings are
non-empty. -/

theorem take_ne_nil_of_pos {s : Str} (h : s ≠ []) {n : ℕ} (hn : 0 < n) :
    s.take n ≠ [] := by
  cases s with
  | nil => exact absurd rfl h
  | cons c t =>
    cases n with
    | zero => exact absurd hn (by simp)
    | succ m => simp

theorem joinSp_ne_nil_two (a b : Str) (t : List Str) : joinSp (a :: b :: t) ≠ [] := by
  rw [joinSp_cons (by simp)]
  simp

theorem mem_accJoin_head {w : Str} (hw : w ≠ []) {c : Char} (hc : c ∈ w)
    (l : List Str) : c ∈ accJoin (w :: l) := by
  rw [accJoin_cons hw]
  cases l with
  | nil => simpa [joinSp] using hc
  | cons y t =>
    rw [joinSp_cons (by simp)]
    exact List.mem_append_left _ hc

theorem chunkPairs_fst_ne_nil {maxTok : ℕ} {sents : List Str}
    (hs : ∀ s ∈ sents, GoodSent s) :
    ∀ c ∈ (chunkPairs maxTok sents).map Prod.fst, c ≠ [] := by
  intro c hc
  rw [List.mem_map] at hc
  obtain ⟨p, hp, rfl⟩ := hc
  obtain ⟨hne, hgood, hfst, -⟩ := (chunkPairs_spec maxTok sents hs).1 p hp
  rw [hfst]
  cases hgp : p.2 with
  | nil => exact absurd hgp hne
  | cons w l =>
    obtain ⟨ch, hch, hchw⟩ := hgood w (by rw [hgp]; simp)
    have hwne : w ≠ [] := (hgood w (by rw [hgp]; simp)).ne_nil
    exact pyStrip_ne_nil (mem_accJoin_head hwne hch l) hchw

theorem chunkPairs_ne_nil {maxTok : ℕ} {sents : List Str}
    (hs : ∀ s ∈ sents, GoodSent s) (hne : sents ≠ []) :
    chunkPairs maxTok sents ≠ [] := by
  intro h
  have := (chunkPairs_spec maxTok sents hs).2
  rw [h] at this
  exact hne this.symm

theorem combineFold_elems_ne (L : ℕ) :
    ∀ (chunks out cur : List Str) (tok : ℕ),
    (∀ x ∈ out, x ≠ []) →
    (let st := chunks.foldl (combineStep L) (out, cur, tok)
     ∀ x ∈ (if accJoin st.2.1 = [] then st.1 else st.1 ++ [accJoin st.2.1]), x ≠ []) := by
  intro chunks
  induction chunks with
  | nil =>
    intro out cur tok hout
    simp only [List.foldl_nil]
    by_cases h : accJoin cur = []
    · rw [if_pos h]; exact hout
    · rw [if_neg h]
      intro x hx
      rcases List.mem_append.mp hx with h1 | h1
      · exact hout x h1
      · rw [List.mem_singleton] at h1; rw [h1]; exact h
  | cons c cs ih =>
    intro out cur tok hout
    simp only [List.foldl_cons, combineStep]
    by_cases hfit : tok + estTokens10 c ≤ L
    · rw [if_pos hfit]
      exact ih out (cur ++ [c]) (tok + estTokens10 c) hout
    · rw [if_neg hfit]
      by_cases h : accJoin cur = []
      · rw [if_pos h]
        exact ih out [c] (estTokens10 c) hout
      · rw [if_neg h]
        refine ih (out ++ [accJoin cur]) [c] (estTokens10 c) ?_
        intro x hx
        rcases List.mem_append.mp hx with h1 | h1
        · exact hout x h1
        · rw [List.mem_singleton] at h1; rw [h1]; exact h

theorem combineFold_cur_ne (L : ℕ) :
    ∀ (chunks : List Str) (st : List Str × List Str × ℕ),
    chunks ≠ [] ∨ st.2.1 ≠ [] →
    (chunks.foldl (combineStep L) st).2.1 ≠ [] := by
  intro chunks
  induction chunks with
  | nil =>
    intro st h
    rcases h with h | h
    · exact absurd rfl h
    · exact h
  | cons c cs ih =>
    intro st _
    simp only [List.foldl_cons]
    refine ih _ (Or.inr ?_)
    rcases st with ⟨out, cur, tok⟩
    simp only [combineStep]
    by_cases hfit : tok + estTokens10 c ≤ L
    · rw [if_pos hfit]; simp
    · rw [if_neg hfit]; simp

theorem combineFold_cur_elems (L : ℕ) :
    ∀ (chunks : List Str) (st : List Str × List Str × ℕ),
    (∀ x ∈ chunks, x ≠ []) → (∀ x ∈ st.2.1, x ≠ []) →
    ∀ x ∈ (chunks.foldl (combineStep L) st).2.1, x ≠ [] := by
  intro chunks
  induction chunks with
  | nil => intro st _ hst; exact hst
  | cons c cs ih =>
    intro st hchunks hst
    rcases st with ⟨out, cur, tok⟩
    simp only [List.foldl_cons, combineStep]
    by_cases hfit : tok + estTokens10 c ≤ L
    · rw [if_pos hfit]
      refine ih _ (fun x hx => hchunks x (by simp [hx])) ?_
      intro x hx
      rcases List.mem_append.mp hx with h1 | h1
      · exact hst x h1
      · rw [List.mem_singleton] at h1; rw [h1]; exact hchunks c (by simp)
    · rw [if_neg hfit]
      by_cases h : accJoin cur = [] <;>
        [rw [if_pos h]; rw [if_neg h]] <;>
        · refine ih _ (fun x hx => hchunks x (by simp [hx])) ?_
          intro x hx
          rw [List.mem_singleton] at hx
          rw [hx]
          exact hchunks c (by simp)

theorem combineChunks_elems_ne (maxTok : ℕ) (chunks : List Str) :
    ∀ x ∈ combineChunks maxTok chunks, x ≠ [] := by
  have h := combineFold_elems_ne (8 * maxTok) chunks [] [] 0 (by simp)
  exact h

theorem combineChunks_ne_nil (maxTok : ℕ) {chunks : List Str}
    (hne : chunks ≠ []) (helems : ∀ x ∈ chunks, x ≠ []) :
    combineChunks maxTok chunks ≠ [] := by
  unfold combineChunks
  have hcur := combineFold_cur_ne (8 * maxTok) chunks ([], [], 0) (Or.inl hne)
  have hcurel := combineFold_cur_elems (8 * maxTok) chunks ([], [], 0) helems (by simp)
  cases hc : (chunks.foldl (combineStep (8 * maxTok)) ([], [], 0)).2.1 with
  | nil => exact absurd hc hcur
  | cons w l =>
    have hwne : w ≠ [] := hcurel w (by rw [hc]; simp)
    show (if accJoin (chunks.foldl (combineStep (8 * maxTok)) ([], [], 0)).2.1 = []
          then (chunks.foldl (combineStep (8 * maxTok)) ([], [], 0)).1
          else (chunks.foldl (combineStep (8 * maxTok)) ([], [], 0)).1
            ++ [accJoin (chunks.foldl (combineStep (8 * maxTok)) ([], [], 0)).2.1]) ≠ []
    rw [hc, if_neg (accJoin_cons_ne hwne l)]
    simp

theorem headD_ne_nil {l : List Str} (h : l ≠ []) (helems : ∀ x ∈ l, x ≠ []) :
    l.headD [] ≠ [] := by
  cases l with
  | nil => exact absurd rfl h
  | cons a t => exact helems a (by simp)

/-- With the all-failing summarizer, `_generate_base_summary` reduces to its
fallback skeleton: truncations of the chunks and of their combination. -/
theorem base_summary_fail_shape (encodeLen : Str → ℕ) (sentTok : Str → List Str)
    (maxTok : ℕ) (text : Str) :
    generate_base_summary encodeLen sentTok failingSummarizer maxTok text =
      (let chunks := chunk_text encodeLen sentTok maxTok text
       if chunks = [] then []
       else if chunks.length = 1 then (chunks.headD []).take 500
       else
         let chunks2 := if 3 < chunks.length then combineChunks maxTok chunks else chunks
         let summaries := chunks2.map fun c => c.take 150
         if 1 < summaries.length then
           (if 100 < (pySplit (joinSp summaries)).length then (joinSp summaries).take 500
            else joinSp summaries)
         else summaries.headD []) := rfl

theorem base_summary_allfail_core (encodeLen : Str → ℕ)
    (sentTok : Str → List Str) (maxTok : ℕ) (text : Str)
    (htext : text ≠ []) (hne : sentTok text ≠ [])
    (hs : ∀ s ∈ sentTok text, GoodSent s) :
    generate_base_summary encodeLen sentTok failingSummarizer maxTok text ≠ []
    ∧ (encodeLen text ≤ maxTok →
        generate_base_summary encodeLen sentTok failingSummarizer maxTok text
          = text.take 500) := by
  by_cases h1 : encodeLen text ≤ maxTok
  · have hchunks : chunk_text encodeLen sentTok maxTok text = [text] := by
      unfold chunk_text; rw [if_pos h1]
    have heval : generate_base_summary encodeLen sentTok failingSummarizer maxTok text
        = text.take 500 := by
      rw [base_summary_fail_shape]
      simp only [hchunks]
      simp
    exact ⟨by rw [heval]; exact take_ne_nil_of_pos htext (by norm_num), fun _ => heval⟩
  · have hchunks : chunk_text encodeLen sentTok maxTok text
        = (chunkPairs maxTok (sentTok text)).map Prod.fst := by
      unfold chunk_text; rw [if_neg h1]
    refine ⟨?_, fun h => absurd h h1⟩
    have hpne : chunkPairs maxTok (sentTok text) ≠ [] := chunkPairs_ne_nil hs hne
    have hclne : (chunkPairs maxTok (sentTok text)).map Prod.fst ≠ [] := by
      simpa using hpne
    have hfstne := @chunkPairs_fst_ne_nil maxTok (sentTok text) hs
    rw [base_summary_fail_shape]
    simp only [hchunks]
    rw [if_neg hclne]
    by_cases hlen1 : ((chunkPairs maxTok (sentTok text)).map Prod.fst).length = 1
    · rw [if_pos hlen1]
      exact take_ne_nil_of_pos (headD_ne_nil hclne hfstne) (by norm_num)
    · rw [if_neg hlen1]
      have hc2 : (if 3 < ((chunkPairs maxTok (sentTok text)).map Prod.fst).length
          then combineChunks maxTok ((chunkPairs maxTok (sentTok text)).map Prod.fst)
          else (chunkPairs maxTok (sentTok text)).map Prod.fst) ≠ []
          ∧ ∀ x ∈ (if 3 < ((chunkPairs maxTok (sentTok text)).map Prod.fst).length
          then combineChunks maxTok ((chunkPairs maxTok (sentTok text)).map Prod.fst)
          else (chunkPairs maxTok (sentTok text)).map Prod.fst), x ≠ [] := by
        by_cases h3 : 3 < ((chunkPairs maxTok (sentTok text)).map Prod.fst).length
        · rw [if_pos h3]
          exact ⟨combineChunks_ne_nil maxTok hclne hfstne,
            combineChunks_elems_ne maxTok _⟩
        · rw [if_neg h3]
          exact ⟨hclne, hfstne⟩
      set c2 := (if 3 < ((chunkPairs maxTok (sentTok text)).map Prod.fst).length
          then combineChunks maxTok ((chunkPairs maxTok (sentTok text)).map Prod.fst)
          else (chunkPairs maxTok (sentTok text)).map Prod.fst) with hc2def
      have hsumne : c2.map (fun c => c.take 150) ≠ [] := by
        simpa using hc2.1
      have hsumelems : ∀ x ∈ c2.map (fun c => c.take 150), x ≠ [] := by
        intro x hx
        rw [List.mem_map] at hx
        obtain ⟨c, hc, rfl⟩ := hx
        exact take_ne_nil_of_pos (hc2.2 c hc) (by norm_num)
      by_cases hs1 : 1 < (c2.map (fun c => c.take 150)).length
      · rw [if_pos hs1]
        have hjoin : joinSp (c2.map fun c => c.take 150) ≠ [] := by
          cases hsl : c2.map (fun c => c.take 150) with
          | nil => exact absurd hsl hsumne
          | cons a t =>
            cases t with
            | nil => rw [hsl] at hs1; simp at hs1
            | cons b u => exact hsl ▸ joinSp_ne_nil_two a b u
        by_cases h100 : 100 < (pySplit (joinSp (c2.map fun c => c.take 150))).length
        · rw [if_pos h100]
          exact take_ne_nil_of_pos hjoin (by norm_num)
        · rw [if_neg h100]
          exact hjoin
      · rw [if_neg hs1]
        exact headD_ne_nil hsumne hsumelems

/-- Claim C2 (confirmed): on any non-empty input whose sentences are usable,
when every summarization call raises, `_generate_base_summary` still returns
non-empty text; in the single-chunk (in-budget) case that text is exactly the
500-character truncation of the input itself, and in general the result is the
fallback skeleton in which every failing chunk is replaced by its own
150-character truncation and a failing final combination by its
500-character truncation. -/
theorem base_summary_allfail_nonempty (encodeLen : Str → ℕ)
    (sentTok : Str → List Str) (maxTok : ℕ) (text : Str)
    (htext : text ≠ []) (hne : sentTok text ≠ [])
    (hs : ∀ s ∈ sentTok text, GoodSent s) :
    generate_base_summary encodeLen sentTok failingSummarizer maxTok text ≠ []
    ∧ (encodeLen text ≤ maxTok →
        generate_base_summary encodeLen sentTok failingSummarizer maxTok text
          = text.take 500)
    ∧ generate_base_summary encodeLen sentTok failingSummarizer maxTok text
        = (let chunks := chunk_text encodeLen sentTok maxTok text
           if chunks = [] then []
           else if chunks.length = 1 then (chunks.headD []).take 500
           else
             let chunks2 := if 3 < chunks.length then combineChunks maxTok chunks else chunks
             let summaries := chunks2.map fun c => c.take 150
             if 1 < summaries.length then
               (if 100 < (pySplit (joinSp summaries)).length then (joinSp summaries).take 500
                else joinSp summaries)
             else summaries.headD []) :=
  ⟨(base_summary_allfail_core encodeLen sentTok maxTok text htext hne hs).1,
   (base_summary_allfail_core encodeLen sentTok maxTok text htext hne hs).2,
   base_summary_fail_shape encodeLen sentTok maxTok text⟩

/-- Witness for C2's theorem at a concrete tokenizer, splitter and text. -/
theorem base_summary_allfail_nonempty_witness :
    generate_base_summary (fun _ => 1) demoSentTok failingSummarizer 1000 "Hi.".data ≠ []
    ∧ ((fun (_ : Str) => 1) "Hi.".data ≤ 1000 →
        generate_base_summary (fun _ => 1) demoSentTok failingSummarizer 1000 "Hi.".data
          = "Hi.".data.take 500)
    ∧ generate_base_summary (fun _ => 1) demoSentTok failingSummarizer 1000 "Hi.".data
        = (let chunks := chunk_text (fun _ => 1) demoSentTok 1000 "Hi.".data
           if chunks = [] then []
           else if chunks.length = 1 then (chunks.headD []).take 500
           else
             let chunks2 := if 3 < chunks.length then combineChunks 1000 chunks else chunks
             let summaries := chunks2.map fun c => c.take 150
             if 1 < summaries.length then
               (if 100 < (pySplit (joinSp summaries)).length then (joinSp summaries).take 500
                else joinSp summaries)
             else summaries.headD []) :=
  base_summary_allfail_nonempty (fun _ => 1) demoSentTok 1000 "Hi.".data
    (by decide) (by decide) (by decide)

/-! Sentiment mapping and the shape of the returned record (claims C10, C7). -/

theorem analyze_sentiment_mem (svc : Str → Option (List Str)) (t : Str) :
    analyze_sentiment svc t = "positive".data ∨ analyze_sentiment svc t = "negative".data
    ∨ analyze_sentiment svc t = "neutral".data := by
  cases hsvc : svc t with
  | none => simp [analyze_sentiment, hsvc]
  | some l =>
    cases l with
    | nil => simp [analyze_sentiment, hsvc]
    | cons lab rest =>
      simp only [analyze_sentiment, hsvc]
      split_ifs <;> simp

theorem analyze_sentiment_fail (svc : Str → Option (List Str))
    (h : ∀ t, svc t = none) (t : Str) :
    analyze_sentiment svc t = "neutral".data := by
  unfold analyze_sentiment
  rw [h t]

theorem journalistic_snd (S : Services) (fastMode : Bool) (text summary : Str) :
    (generate_journalistic_paragraph S fastMode text summary).2
      = analyze_sentiment S.sentiment (if fastMode then summary else text) := by
  cases fastMode <;> rfl

/-- Claim C10 (confirmed): for every collaborator outcome, configuration and
input, `summarize_article` returns exactly the four string-valued keys
`title`, `sentiment`, `paragraph`, `hashtags` in that order; the `hashtags`
value is the space-joined hashtag list (a single string, not a list); and the
`sentiment` value is one of `positive`/`negative`/`neutral`, being `neutral`
whenever the sentiment service raises on every input. -/
theorem summarize_article_record_shape (S : Services) (fastMode : Bool)
    (cfg : SummaryConfig) (title text : Str) :
    (summarize_article S fastMode cfg title text).map Prod.fst
      = ["title".data, "sentiment".data, "paragraph".data, "hashtags".data]
    ∧ (∃ v, (summarize_article S fastMode cfg title text)[1]? = some ("sentiment".data, v)
        ∧ (v = "positive".data ∨ v = "negative".data ∨ v = "neutral".data)
        ∧ ((∀ t, S.sentiment t = none) → v = "neutral".data))
    ∧ (summarize_article S fastMode cfg title text)[3]?
        = some ("hashtags".data, joinSp (generate_hashtags S.wordTok S.setOrder S.padChoice
            (S.cleanText text) cfg.min_hashtags cfg.max_hashtags)) := by
  refine ⟨rfl, ⟨(generate_journalistic_paragraph S fastMode (S.cleanText text)
    (generate_base_summary S.encodeLen S.sentTok S.summarize cfg.max_chunk_tokens
      (S.cleanText text))).2, rfl, ?_, ?_⟩, rfl⟩
  · rw [journalistic_snd]
    exact analyze_sentiment_mem _ _
  · intro h
    rw [journalistic_snd]
    exact analyze_sentiment_fail _ h _

/-- Claim C7 (corrected, amended part): the minimum-length check lives in the
API request model `SummarizeRequest.validate_text_content`, which rejects any
input whose cleaned, stripped text is shorter than 100 characters before any
model call can happen. -/
theorem validate_rejects_short (cleanHtml : Str → Str) (v : Str)
    (h : (pyStrip (cleanHtml v)).length < 100) :
    validate_text_content cleanHtml v
      = Except.error "Text content must be at least 100 characters after HTML cleaning".data := by
  unfold validate_text_content
  rw [if_pos h]

/-- Witness for C7's amended theorem. -/
theorem validate_rejects_short_witness :
    validate_text_content id "short".data
      = Except.error "Text content must be at least 100 characters after HTML cleaning".data :=
  validate_rejects_short id "short".data (by decide)

/-- Counterexample to C7 as stated: the pipeline entry point
`summarize_article` performs no length validation. On a 5-character body it
returns an ordinary four-key record (it has no error variant at all), and its
output depends on the summarizer's answer — an external summarization call is
attempted. -/
theorem summarize_short_input_cex :
    (summarize_article (demoServices (fun _ _ => some "first model answer".data))
        true defaultCfg "T".data "Tiny.".data).map Prod.fst
      = ["title".data, "sentiment".data, "paragraph".data, "hashtags".data]
    ∧ summarize_article (demoServices (fun _ _ => some "first model answer".data))
        true defaultCfg "T".data "Tiny.".data
      ≠ summarize_article (demoServices (fun _ _ => some "second answer text".data))
        true defaultCfg "T".data "Tiny.".data := by decide

/-! The first-maximum fold of the category classifier (claim C9). -/

theorem le_foldr_max {α : Type} (f : α → ℕ) :
    ∀ (l : List α), ∀ x ∈ l, f x ≤ (l.map f).foldr max 0 := by
  intro l
  induction l with
  | nil => intro x hx; simp at hx
  | cons a t ih =>
    intro x hx
    simp only [List.map_cons, List.foldr_cons]
    rcases List.mem_cons.mp hx with h | h
    · rw [h]; exact le_max_left _ _
    · exact le_trans (ih x h) (le_max_right _ _)

theorem foldBest_all_le {α β : Type} (f : α → ℕ) (key : α → β) :
    ∀ (l : List α) (b : β) (n : ℕ), (∀ x ∈ l, f x ≤ n) →
    l.foldl (fun acc y => if acc.2 < f y then (key y, f y) else acc) (b, n) = (b, n) := by
  intro l
  induction l with
  | nil => intro b n _; rfl
  | cons a t ih =>
    intro b n h
    simp only [List.foldl_cons]
    rw [if_neg (not_lt.mpr (h a (by simp)))]
    exact ih b n (fun x hx => h x (by simp [hx]))

theorem foldBest_first_max {α β : Type} (f : α → ℕ) (key : α → β) :
    ∀ (l : List α) (b : β) (n : ℕ), n < (l.map f).foldr max 0 →
    ∃ x, x ∈ l ∧ f x = (l.map f).foldr max 0
      ∧ l.find? (fun y => f y == (l.map f).foldr max 0) = some x
      ∧ l.foldl (fun acc y => if acc.2 < f y then (key y, f y) else acc) (b, n)
          = (key x, f x) := by
  intro l
  induction l with
  | nil => intro b n h; simp at h
  | cons a t ih =>
    intro b n h
    simp only [List.map_cons, List.foldr_cons] at h ⊢
    by_cases ha : n < f a
    · by_cases h1 : (t.map f).foldr max 0 ≤ f a
      · have hM : max (f a) ((t.map f).foldr max 0) = f a := max_eq_left h1
        refine ⟨a, by simp, hM.symm, ?_, ?_⟩
        · rw [List.find?_cons_of_pos _ (by simp [hM])]
        · simp only [List.foldl_cons, if_pos ha]
          exact foldBest_all_le f key t (key a) (f a)
            (fun x hx => le_trans (le_foldr_max f t x hx) h1)
      · have hlt : f a < (t.map f).foldr max 0 := not_le.mp h1
        have hM : max (f a) ((t.map f).foldr max 0) = (t.map f).foldr max 0 :=
          max_eq_right (le_of_lt hlt)
        obtain ⟨x, hxt, hfx, hfind, hfold⟩ := ih (key a) (f a) hlt
        refine ⟨x, by simp [hxt], by rw [hM, hfx], ?_, ?_⟩
        · rw [List.find?_cons_of_neg _ (by simp [hM]; omega)]
          simp only [hM]
          exact hfind
        · simp only [List.foldl_cons, if_pos ha]
          exact hfold
    · have hfa : f a ≤ n := not_lt.mp ha
      have hM : max (f a) ((t.map f).foldr max 0) = (t.map f).foldr max 0 := by
        rcases max_cases (f a) ((t.map f).foldr max 0) with ⟨h2, h3⟩ | ⟨h2, h3⟩
        · omega
        · exact h2
      rw [hM] at h
      obtain ⟨x, hxt, hfx, hfind, hfold⟩ := ih b n h
      refine ⟨x, by simp [hxt], by rw [hM, hfx], ?_, ?_⟩
      · rw [List.find?_cons_of_neg _ (by simp [hM]; omega)]
        simp only [hM]
        exact hfind
      · simp only [List.foldl_cons, if_neg ha]
        exact hfold

theorem find?_map_comp {α β : Type} (g : α → β) (p : β → Bool) :
    ∀ (l : List α), (l.map g).find? p = (l.find? fun x => p (g x)).map g := by
  intro l
  induction l with
  | nil => rfl
  | cons a t ih =>
    simp only [List.map_cons, List.find?_cons]
    cases hpa : p (g a) with
    | true => rfl
    | false => exact ih

/-- Claim C9 (confirmed): the classifier's running-best fold equals the
specification written from the spec's words — highest keyword count wins, ties
go to the category seen first in table iteration order, and the designated
default `market_general` is returned when every count is zero. -/
theorem story_type_eq_spec (text summary : Str) :
    analyze_story_type text summary = specStoryType text summary := by
  unfold analyze_story_type specStoryType
  set combined := (text ++ ' ' :: summary).map Char.toLower with hcomb
  have hsnd : (financial_story_types.map fun p => (p.1, countMatches combined p.2)).map Prod.snd
      = financial_story_types.map fun p => countMatches combined p.2 := by
    rw [List.map_map]; rfl
  simp only [hsnd]
  set f := fun p : Str × List Str => countMatches combined p.2 with hf
  by_cases hmx : (financial_story_types.map f).foldr max 0 = 0
  · rw [if_pos hmx]
    have hall : ∀ x ∈ financial_story_types, f x ≤ 0 := by
      intro x hx
      rw [← hmx]
      exact le_foldr_max f _ x hx
    rw [foldBest_all_le f Prod.fst _ _ _ hall]
  · rw [if_neg hmx]
    obtain ⟨x, hmem, hfx, hfind, hfold⟩ :=
      foldBest_first_max f Prod.fst financial_story_types ("market_general".data) 0
        (Nat.pos_of_ne_zero hmx)
    rw [hfold]
    have hfind2 : ((financial_story_types.map fun p => (p.1, countMatches combined p.2)).find?
        fun q => q.2 == (financial_story_types.map f).foldr max 0)
        = some (x.1, f x) := by
      rw [find?_map_comp]
      have : (fun p : Str × List Str =>
          (p.1, countMatches combined p.2).2 == (financial_story_types.map f).foldr max 0)
          = fun y => f y == (financial_story_types.map f).foldr max 0 := rfl
      rw [this, hfind]
      rfl
    rw [hfind2]
    rfl

/-! Hashtag generation (claim C4). -/

/-- The body of `generate_hashtags` with its local bindings written out. -/
theorem generate_hashtags_eq (wordTok : Str → List Str) (setOrder : List Str → List Str)
    (padChoice : ℕ → Str) (text : Str) (min_count max_count : ℕ) :
    generate_hashtags wordTok setOrder padChoice text min_count max_count
      = (setOrder (((((wordTok (text.map Char.toLower)).filter
            (· ∈ financial_keywords)).take 3).map fun w => '#' :: capitalizeW w)
          ++ base_hashtags)).take max_count
        ++ (List.range (min_count - ((setOrder (((((wordTok (text.map Char.toLower)).filter
            (· ∈ financial_keywords)).take 3).map fun w => '#' :: capitalizeW w)
          ++ base_hashtags)).take max_count).length)).map padChoice := rfl

/-- Claim C4 (corrected, amended part): whenever the set-order collaborator is
a true deduplication, the padding choices come from the base pool, and the
configuration satisfies `min_hashtags <= max_hashtags` and
`min_hashtags <= 5` (the size of the base pool, so no padding is needed), the
hashtag list respects both bounds, every entry starts with `#`, and there are
no duplicates. -/
theorem generate_hashtags_spec (wordTok : Str → List Str)
    (setOrder : List Str → List Str) (padChoice : ℕ → Str)
    (text : Str) (min_count max_count : ℕ)
    (hso : ∀ l, (setOrder l).Nodup ∧ ∀ x, x ∈ setOrder l ↔ x ∈ l)
    (hminmax : min_count ≤ max_count) (hmin5 : min_count ≤ 5) :
    min_count ≤ (generate_hashtags wordTok setOrder padChoice text min_count max_count).length
    ∧ (generate_hashtags wordTok setOrder padChoice text min_count max_count).length ≤ max_count
    ∧ (∀ h ∈ generate_hashtags wordTok setOrder padChoice text min_count max_count,
        h.headD ' ' = '#')
    ∧ (generate_hashtags wordTok setOrder padChoice text min_count max_count).Nodup := by
  rw [generate_hashtags_eq]
  set l0 := (((((wordTok (text.map Char.toLower)).filter
      (· ∈ financial_keywords)).take 3).map fun w => '#' :: capitalizeW w)
    ++ base_hashtags) with hl0
  obtain ⟨hnd, hmem⟩ := hso l0
  have h5 : 5 ≤ (setOrder l0).length := by
    have hsub : base_hashtags.toFinset ⊆ (setOrder l0).toFinset := by
      intro x hx
      rw [List.mem_toFinset] at hx ⊢
      exact (hmem x).mpr (List.mem_append_right _ hx)
    have h1 : base_hashtags.toFinset.card = 5 := by decide
    have h2 : (setOrder l0).toFinset.card = (setOrder l0).length :=
      List.toFinset_card_of_nodup hnd
    calc 5 = base_hashtags.toFinset.card := h1.symm
      _ ≤ (setOrder l0).toFinset.card := Finset.card_le_card hsub
      _ = (setOrder l0).length := h2
  have hlen : ((setOrder l0).take max_count).length = min max_count (setOrder l0).length :=
    List.length_take _ _
  have hmc : min_count ≤ ((setOrder l0).take max_count).length := by
    rw [hlen]; omega
  have hpad : min_count - ((setOrder l0).take max_count).length = 0 :=
    Nat.sub_eq_zero_of_le hmc
  rw [hpad]
  simp only [List.range_zero, List.map_nil, List.append_nil]
  refine ⟨hmc, by rw [hlen]; omega, ?_, hnd.sublist (List.take_sublist _ _)⟩
  intro h hh
  have hh0 : h ∈ l0 := (hmem h).mp (List.mem_of_mem_take hh)
  rcases List.mem_append.mp hh0 with h1 | h1
  · rw [List.mem_map] at h1
    obtain ⟨w, -, rfl⟩ := h1
    rfl
  · revert h1
    have : ∀ x ∈ base_hashtags, x.headD ' ' = '#' := by decide
    exact this h

/-- Witness for C4's amended theorem at concrete collaborators and the default
configuration bounds. -/
theorem generate_hashtags_spec_witness :
    3 ≤ (generate_hashtags (fun _ => []) List.dedup (fun _ => "#News".data) "x".data 3 5).length
    ∧ (generate_hashtags (fun _ => []) List.dedup (fun _ => "#News".data) "x".data 3 5).length ≤ 5
    ∧ (∀ h ∈ generate_hashtags (fun _ => []) List.dedup (fun _ => "#News".data) "x".data 3 5,
        h.headD ' ' = '#')
    ∧ (generate_hashtags (fun _ => []) List.dedup (fun _ => "#News".data) "x".data 3 5).Nodup :=
  generate_hashtags_spec (fun _ => []) List.dedup (fun _ => "#News".data) "x".data 3 5
    (fun l => ⟨l.nodup_dedup, fun _ => List.mem_dedup⟩) (by decide) (by decide)

/-- Counterexample to C4 as stated: with `min_hashtags = 7 <= max_hashtags =
10` and a keyword-free text, deduplication leaves the five base hashtags and
the padding loop appends `random.choice(base_hashtags)` results that are
already present — the result has duplicates, whatever the random choice is
(here: the choice always lands on `#News`). -/
theorem generate_hashtags_dup_cex :
    ¬ (generate_hashtags (fun _ => []) List.dedup (fun _ => "#News".data)
        "x".data 7 10).Nodup := by decide

/-! Title composition (claims C5 and C6). -/

theorem wordScores_fst_lt (text : Str) :
    ∀ p ∈ wordScores text, p.1 < (pySplit text).length := by
  intro p hp
  unfold wordScores at hp
  rw [List.mem_filterMap] at hp
  obtain ⟨q, hq, hgq⟩ := hp
  have hfst : p.1 = q.1 := by
    by_cases hc : cleanWord q.2 = [] ∨ cleanWord q.2 ∈ filler_words
    · rw [if_pos hc] at hgq; exact absurd hgq (by simp)
    · rw [if_neg hc] at hgq
      have := Option.some.inj hgq
      rw [← this]
  have : q.1 ∈ ((pySplit text).enum.map Prod.fst) := List.mem_map_of_mem _ hq
  rw [List.enum_map_fst, List.mem_range] at this
  omega

theorem filterMap_fst_sublist {β : Type} (g : ℕ × Str → Option (ℕ × β))
    (hg : ∀ q r, g q = some r → r.1 = q.1) :
    ∀ (l : List (ℕ × Str)),
    ((l.filterMap g).map Prod.fst).Sublist (l.map Prod.fst) := by
  intro l
  induction l with
  | nil => simp
  | cons a t ih =>
    cases hga : g a with
    | none =>
      rw [List.filterMap_cons_none hga]
      exact ih.cons _
    | some r =>
      rw [List.filterMap_cons_some hga]
      simp only [List.map_cons]
      rw [hg a r hga]
      exact ih.cons₂ _

theorem wordScores_fst_nodup (text : Str) :
    ((wordScores text).map Prod.fst).Nodup := by
  have hsub := filterMap_fst_sublist
    (fun p => if cleanWord p.2 = [] ∨ cleanWord p.2 ∈ filler_words then none
              else some (p.1, wordScore10 p.1 p.2 (cleanWord p.2)))
    (by
      intro q r h
      simp only [] at h
      by_cases hc : cleanWord q.2 = [] ∨ cleanWord q.2 ∈ filler_words
      · rw [if_pos hc] at h; exact absurd h (by simp)
      · rw [if_neg hc] at h
        have := Option.some.inj h
        rw [← this])
    (pySplit text).enum
  have hrange : ((pySplit text).enum.map Prod.fst).Nodup := by
    rw [List.enum_map_fst]; exact List.nodup_range _
  exact hrange.sublist hsub

theorem eq_of_fst_nodup {l : List (ℕ × ℤ)} (h : (l.map Prod.fst).Nodup)
    {p q : ℕ × ℤ} (hp : p ∈ l) (hq : q ∈ l) (hfst : p.1 = q.1) : p = q := by
  induction l with
  | nil => simp at hp
  | cons a t ih =>
    simp only [List.map_cons, List.nodup_cons] at h
    rcases List.mem_cons.mp hp with h1 | h1 <;> rcases List.mem_cons.mp hq with h2 | h2
    · rw [h1, h2]
    · exfalso
      refine h.1 ?_
      rw [← h1, hfst]
      exact List.mem_map_of_mem _ h2
    · exfalso
      refine h.1 ?_
      rw [← h2, ← hfst]
      exact List.mem_map_of_mem _ h1
    · exact ih h.2 h1 h2

theorem titleIndices_mem (text : Str) (mw : ℕ) :
    ∀ i ∈ titleIndices text mw, i ∈ (wordScores text).map Prod.fst := by
  intro i hi
  unfold titleIndices at hi
  rw [(List.perm_insertionSort _ _).mem_iff, List.mem_map] at hi
  obtain ⟨p, hp, rfl⟩ := hi
  have hp2 : p ∈ List.insertionSort keyRel (wordScores text) := List.mem_of_mem_take hp
  rw [(List.perm_insertionSort _ _).mem_iff] at hp2
  exact List.mem_map_of_mem _ hp2

theorem titleIndices_lt (text : Str) (mw : ℕ) :
    ∀ i ∈ titleIndices text mw, i < (pySplit text).length := by
  intro i hi
  have := titleIndices_mem text mw i hi
  rw [List.mem_map] at this
  obtain ⟨p, hp, rfl⟩ := this
  exact wordScores_fst_lt text p hp

theorem titleIndices_length (text : Str) (mw : ℕ) :
    (titleIndices text mw).length = min mw (wordScores text).length := by
  unfold titleIndices
  rw [(List.perm_insertionSort _ _).length_eq, List.length_map, List.length_take,
    (List.perm_insertionSort _ _).length_eq]

theorem titleWords_clean (text : Str) (mw : ℕ) :
    ∀ w ∈ (titleIndices text mw).map fun i => (pySplit text).getD i [],
      w ≠ [] ∧ ∀ c ∈ w, isWs c = false := by
  intro w hw
  rw [List.mem_map] at hw
  obtain ⟨i, hi, rfl⟩ := hw
  have hlt := titleIndices_lt text mw i hi
  rw [List.getD_eq_getElem _ _ hlt]
  exact pySplit_mem_clean _ (List.getElem_mem hlt)

theorem pyStrip_all_ws {s : Str} (h : ∀ c ∈ s, isWs c = true) : pyStrip s = [] := by
  unfold pyStrip
  rw [List.dropWhile_eq_nil_iff.mpr h]
  rfl

theorem pySplit_ne_nil_of_strip {s : Str} (h : pyStrip s ≠ []) : pySplit s ≠ [] := by
  intro hsp
  exact h (pyStrip_all_ws (pySplitAux_eq_nil hsp).2)

/-- Claim C5 (corrected, amended part): for `max_words >= 2` the composed
title always splits into at most `max_words` words and is never empty, and
empty or whitespace-only input yields the fixed default `News Update` (whose
two words are what force `max_words >= 2`). -/
theorem generate_short_title_spec (text : Str) (mw : ℕ) (hmw : 2 ≤ mw) :
    (pySplit (generate_short_title text mw)).length ≤ mw
    ∧ generate_short_title text mw ≠ []
    ∧ (pyStrip text = [] → generate_short_title text mw = "News Update".data) := by
  unfold generate_short_title
  by_cases hstrip : pyStrip text = []
  · rw [if_pos hstrip]
    refine ⟨?_, by decide, fun _ => rfl⟩
    have : (pySplit "News Update".data).length = 2 := by decide
    omega
  · rw [if_neg hstrip]
    refine ?_
    by_cases hws : wordScores text = []
    · rw [if_pos hws]
      have hclean : ∀ w ∈ (pySplit text).take mw, w ≠ [] ∧ ∀ c ∈ w, isWs c = false :=
        fun w hw => pySplit_mem_clean _ (List.mem_of_mem_take hw)
      have hsplit : pySplit (joinSp ((pySplit text).take mw)) = (pySplit text).take mw :=
        pySplit_joinSp hclean
      refine ⟨?_, ?_, fun h => absurd h hstrip⟩
      · rw [hsplit, List.length_take]
        omega
      · intro h
        have h2 : pySplit (joinSp ((pySplit text).take mw)) = [] := by rw [h]; rfl
        rw [hsplit] at h2
        have hne := pySplit_ne_nil_of_strip hstrip
        cases hsp : pySplit text with
        | nil => exact hne hsp
        | cons a t =>
          rw [hsp] at h2
          cases mw with
          | zero => omega
          | succ k => simp at h2
    · rw [if_neg hws]
      have hclean := titleWords_clean text mw
      have hsplit : pySplit (normSpaces (pyStrip (joinSp
          ((titleIndices text mw).map fun i => (pySplit text).getD i []))))
          = (titleIndices text mw).map fun i => (pySplit text).getD i [] := by
        rw [pySplit_normSpaces, pySplit_pyStrip, pySplit_joinSp hclean]
      have htne : (titleIndices text mw).map (fun i => (pySplit text).getD i []) ≠ [] := by
        have hlen : (titleIndices text mw).length = min mw (wordScores text).length :=
          titleIndices_length text mw
        intro h
        rw [List.map_eq_nil_iff] at h
        rw [h] at hlen
        simp only [List.length_nil] at hlen
        have : (wordScores text).length ≠ 0 := fun h0 => hws (List.length_eq_zero.mp h0)
        omega
      have htitle_ne : normSpaces (pyStrip (joinSp
          ((titleIndices text mw).map fun i => (pySplit text).getD i []))) ≠ [] := by
        intro h
        have h2 : pySplit (normSpaces (pyStrip (joinSp
            ((titleIndices text mw).map fun i => (pySplit text).getD i [])))) = [] := by
          rw [h]; rfl
        rw [hsplit] at h2
        exact htne h2
      rw [if_neg htitle_ne]
      refine ⟨?_, htitle_ne, fun h => absurd h hstrip⟩
      rw [hsplit, List.length_map, titleIndices_length]
      omega

/-- Witness for C5's amended theorem at a concrete text and the default
`max_title_words`. -/
theorem generate_short_title_spec_witness :
    (pySplit (generate_short_title "Bitcoin surges today".data 10)).length ≤ 10
    ∧ generate_short_title "Bitcoin surges today".data 10 ≠ []
    ∧ (pyStrip "Bitcoin surges today".data = [] →
        generate_short_title "Bitcoin surges today".data 10 = "News Update".data) :=
  generate_short_title_spec "Bitcoin surges today".data 10 (by decide)

/-- Counterexample to C5 as stated: at `max_words = 1` the empty input falls
back to the fixed default `News Update`, which splits into two words — the
claimed bound `len(title.split()) <= max_words` fails. -/
theorem generate_short_title_bound_cex :
    generate_short_title ([] : Str) 1 = "News Update".data
    ∧ 1 < (pySplit (generate_short_title ([] : Str) 1)).length := by decide

/-- Claim C6 (corrected): the two selection passes hold — the kept positions
are presented in ascending textual order, exactly `min max_words |candidates|`
of them, and every kept candidate dominates every dropped one under
(score desc, position asc) — but the verbatim fallback fires exactly when the
candidate dict is empty (every word filtered out), not when fewer than two
words score positively. -/
theorem title_two_pass_selection (text : Str) (mw : ℕ) (hmw : 1 ≤ mw) :
    (wordScores text = [] → pyStrip text ≠ [] →
      generate_short_title text mw = joinSp ((pySplit text).take mw))
    ∧ (titleIndices text mw).Sorted (· ≤ ·)
    ∧ (titleIndices text mw).length = min mw (wordScores text).length
    ∧ (∀ p ∈ wordScores text, ∀ q ∈ wordScores text,
        p.1 ∈ titleIndices text mw → q.1 ∉ titleIndices text mw →
        q.2 < p.2 ∨ (p.2 = q.2 ∧ p.1 < q.1))
    ∧ (wordScores text ≠ [] → pyStrip text ≠ [] →
        pySplit (generate_short_title text mw)
          = (titleIndices text mw).map fun i => (pySplit text).getD i []) := by
  refine ⟨?_, ?_, titleIndices_length text mw, ?_, ?_⟩
  · intro hws hstrip
    unfold generate_short_title
    rw [if_neg hstrip, if_pos hws]
  · exact List.sorted_insertionSort _ _
  · intro p hp q hq hpin hqout
    set sorted := List.insertionSort keyRel (wordScores text) with hsorted
    have hsortnd : (sorted.map Prod.fst).Nodup :=
      (((List.perm_insertionSort keyRel (wordScores text)).map Prod.fst).nodup_iff).mpr
        (wordScores_fst_nodup text)
    have hpmem : p ∈ sorted := ((List.perm_insertionSort keyRel _).mem_iff).mpr hp
    have hqmem : q ∈ sorted := ((List.perm_insertionSort keyRel _).mem_iff).mpr hq
    have hptake : p ∈ sorted.take mw := by
      unfold titleIndices at hpin
      rw [(List.perm_insertionSort _ _).mem_iff, List.mem_map] at hpin
      obtain ⟨p', hp', hp'fst⟩ := hpin
      have hp'mem : p' ∈ sorted := List.mem_of_mem_take hp'
      have : p' = p := eq_of_fst_nodup hsortnd hp'mem hpmem hp'fst
      rw [← this]
      exact hp'
    have hqdrop : q ∈ sorted.drop mw := by
      have := List.take_append_drop mw sorted
      rcases List.mem_append.mp (by rw [this]; exact hqmem) with h | h
      · exfalso
        refine hqout ?_
        unfold titleIndices
        rw [(List.perm_insertionSort _ _).mem_iff]
        exact List.mem_map_of_mem _ h
      · exact h
    have hpair : keyRel p q := by
      have hsort : List.Pairwise keyRel sorted :=
        List.sorted_insertionSort keyRel (wordScores text)
      rw [← List.take_append_drop mw sorted, List.pairwise_append] at hsort
      exact hsort.2.2 p hptake q hqdrop
    have hfstne : p.1 ≠ q.1 := by
      intro h
      have hcand : ((wordScores text).map Prod.fst).Nodup := wordScores_fst_nodup text
      have : p = q := eq_of_fst_nodup hcand hp hq h
      rw [this] at hptake
      refine hqout ?_
      unfold titleIndices
      rw [(List.perm_insertionSort _ _).mem_iff]
      exact List.mem_map_of_mem _ hptake
    rcases hpair with h | ⟨h1, h2⟩
    · exact Or.inl h
    · exact Or.inr ⟨h1, lt_of_le_of_ne h2 hfstne⟩
  · intro hws hstrip
    unfold generate_short_title
    rw [if_neg hstrip, if_neg hws]
    have hclean := titleWords_clean text mw
    have hsplit : pySplit (normSpaces (pyStrip (joinSp
        ((titleIndices text mw).map fun i => (pySplit text).getD i []))))
        = (titleIndices text mw).map fun i => (pySplit text).getD i [] := by
      rw [pySplit_normSpaces, pySplit_pyStrip, pySplit_joinSp hclean]
    have htne : (titleIndices text mw).map (fun i => (pySplit text).getD i []) ≠ [] := by
      have hlen := titleIndices_length text mw
      intro h
      rw [List.map_eq_nil_iff] at h
      rw [h] at hlen
      simp only [List.length_nil] at hlen
      have : (wordScores text).length ≠ 0 := fun h0 => hws (List.length_eq_zero.mp h0)
      omega
    have htitle_ne : normSpaces (pyStrip (joinSp
        ((titleIndices text mw).map fun i => (pySplit text).getD i []))) ≠ [] := by
      intro h
      have h2 : pySplit (normSpaces (pyStrip (joinSp
          ((titleIndices text mw).map fun i => (pySplit text).getD i [])))) = [] := by
        rw [h]; rfl
      rw [hsplit] at h2
      exact htne h2
    rw [if_neg htitle_ne]
    exact hsplit

/-- Witness for C6's amended theorem at a concrete text. -/
theorem title_two_pass_selection_witness :
    (wordScores "Bitcoin surges today".data = [] → pyStrip "Bitcoin surges today".data ≠ [] →
      generate_short_title "Bitcoin surges today".data 3
        = joinSp ((pySplit "Bitcoin surges today".data).take 3))
    ∧ (titleIndices "Bitcoin surges today".data 3).Sorted (· ≤ ·)
    ∧ (titleIndices "Bitcoin surges today".data 3).length
        = min 3 (wordScores "Bitcoin surges today".data).length
    ∧ (∀ p ∈ wordScores "Bitcoin surges today".data,
        ∀ q ∈ wordScores "Bitcoin surges today".data,
        p.1 ∈ titleIndices "Bitcoin surges today".data 3 →
        q.1 ∉ titleIndices "Bitcoin surges today".data 3 →
        q.2 < p.2 ∨ (p.2 = q.2 ∧ p.1 < q.1))
    ∧ (wordScores "Bitcoin surges today".data ≠ [] →
        pyStrip "Bitcoin surges today".data ≠ [] →
        pySplit (generate_short_title "Bitcoin surges today".data 3)
          = (titleIndices "Bitcoin surges today".data 3).map
              fun i => (pySplit "Bitcoin surges today".data).getD i []) :=
  title_two_pass_selection "Bitcoin surges today".data 3 (by decide)

/-- Counterexample to C6 as stated: in `c6Text` no word scores positively
(fewer than two positive scores), yet the candidate dict is non-empty, so the
code takes the scoring path and returns `misses` — not the first
`max_words` words of the source, as the claimed fallback condition demands. -/
theorem title_fallback_cex :
    ((wordScores c6Text).filter fun p => decide (0 < p.2)).length < 2
    ∧ wordScores c6Text ≠ []
    ∧ generate_short_title c6Text 10 = "misses".data
    ∧ generate_short_title c6Text 10 ≠ joinSp ((pySplit c6Text).take 10) := by decide

/-- Claim C3 (corrected): on Scenario D's body the extractor returns the bare
numeric captures — `50` in `percentages` and `120` in `prices` (the regex
capture groups stop before the `%` and after the `$`) — and the factual
opening of core.py is independent of the extracted key data for every input:
no percentage augmentation happens. -/
theorem extract_scenario_d_amended (sentTok : Str → List Str)
    (text summary : Str) (kd kd' : KeyData) :
    "50".data ∈ (extract_key_data c3Body).percentages
    ∧ "120".data ∈ (extract_key_data c3Body).prices
    ∧ create_factual_opening sentTok text summary kd
        = create_factual_opening sentTok text summary kd' := by
  refine ⟨by decide, by decide, rfl⟩

/-- Counterexample to C3 as stated: on Scenario D's body the percentage list
does not contain the string `50%` and the price list does not contain the
string `$120` — the capture groups exclude the signs. -/
theorem extract_scenario_d_cex :
    "50%".data ∉ (extract_key_data c3Body).percentages
    ∧ "$120".data ∉ (extract_key_data c3Body).prices
    ∧ (extract_key_data c3Body).percentages = ["50".data]
    ∧ (extract_key_data c3Body).prices = ["120".data] := by decide

end NewsSum
